import Mathlib

/-!
# eplkup: the hit-rendering loop of `WinMain`

A shallow embedding of `src/xpi/epwing/eplkup_source_code/eplkup.c`.

* `WinMain_hookset` embeds the hook registration (lines 109-143).
* `heading_block`, `text_block`, `hit_body`, `for_hits` and `while_hits` embed the
  search-result loop (lines 265-412), starting in the state reached once
  `eb_search_exactword` has succeeded.

The EB library and the helpers of `eplkup_utils`/`eplkup_gaiji` are not part of the
source file; they enter as the fields of `Collaborators`.  The globals of
`eplkup_data.h` that `parse_command_line` sets enter as the fields of `Config`.
C `int`s are `Int`, bytes are natural numbers, and a value the C program leaves
indeterminate (the local `text_length`, the local array `hits`) is whatever the
starting `State` holds.  A call the C standard leaves undefined, the `fclose` of a
FILE that is already closed, ends the run with `Run.undefined` set.
-/

namespace Eplkup

/-! ## Bytes and formatted output -/

abbrev Bytes := List Nat

/-- The bytes of a C string stored in a buffer: everything before the first NUL
(what `strlen`, `%s` and `fwrite(buf, 1, strlen(buf), f)` see). -/
def c_str (b : Bytes) : Bytes := b.takeWhile (fun c => c != 0)

/-- The bytes of an ASCII literal. -/
def ascii (s : String) : Bytes := s.toList.map Char.toNat

/-- Rendering of `%d`. -/
def fmt_d (n : Int) : Bytes :=
  if n < 0 then 45 :: (Nat.toDigits 10 n.natAbs).map Char.toNat
  else (Nat.toDigits 10 n.toNat).map Char.toNat

/-- Bytes of `fprintf(out_file, "{HITS: %d}\n", hit_count)`. -/
def hits_banner (hit_count : Int) : Bytes :=
  ascii "\x7bHITS: " ++ fmt_d hit_count ++ ascii "\x7d\n"

/-- Bytes of `fprintf(out_file, "{ENTRY: %d}\n", i)`. -/
def entry_banner (i : Int) : Bytes :=
  ascii "\x7bENTRY: " ++ fmt_d i ++ ascii "\x7d\n"

/-- The first line of a file: the bytes before the first newline. -/
def first_line (b : Bytes) : Bytes := b.takeWhile (fun c => c != 10)

/-! ## Hooks (lines 43-63, 109-143) -/

/-- The hook codes the program names (lines 45-56); `EB_HOOK_OTHER` stands for
every other code of the library. -/
inductive EB_Hook_Code where
  | EB_HOOK_BEGIN_SUBSCRIPT
  | EB_HOOK_BEGIN_SUPERSCRIPT
  | EB_HOOK_END_SUBSCRIPT
  | EB_HOOK_END_SUPERSCRIPT
  | EB_HOOK_NARROW_FONT
  | EB_HOOK_WIDE_FONT
  | EB_HOOK_BEGIN_KEYWORD
  | EB_HOOK_END_KEYWORD
  | EB_HOOK_BEGIN_EMPHASIS
  | EB_HOOK_END_EMPHASIS
  | EB_HOOK_BEGIN_REFERENCE
  | EB_HOOK_END_REFERENCE
  | EB_HOOK_OTHER (code : Nat)
  deriving DecidableEq, Repr

/-- The handlers of `eplkup_hook_handler.h` the program refers to. -/
inductive Hook_Function where
  | hook_set_begin_subscript
  | hook_set_begin_superscript
  | hook_set_end_subscript
  | hook_set_end_superscript
  | hook_set_narrow_font
  | hook_set_wide_font
  | hook_set_begin_keyword
  | hook_set_end_keyword
  | hook_set_begin_emphasis
  | hook_set_end_emphasis
  | hook_set_begin_reference
  | hook_set_end_reference
  deriving DecidableEq, Repr

structure EB_Hook where
  code : EB_Hook_Code
  function : Hook_Function
  deriving DecidableEq, Repr

open EB_Hook_Code Hook_Function

def hook_begin_subscript : EB_Hook := ⟨EB_HOOK_BEGIN_SUBSCRIPT, hook_set_begin_subscript⟩
def hook_begin_superscript : EB_Hook := ⟨EB_HOOK_BEGIN_SUPERSCRIPT, hook_set_begin_superscript⟩
def hook_end_subscript : EB_Hook := ⟨EB_HOOK_END_SUBSCRIPT, hook_set_end_subscript⟩
def hook_end_superscript : EB_Hook := ⟨EB_HOOK_END_SUPERSCRIPT, hook_set_end_superscript⟩
def hook_narrow_font : EB_Hook := ⟨EB_HOOK_NARROW_FONT, hook_set_narrow_font⟩
def hook_wide_font : EB_Hook := ⟨EB_HOOK_WIDE_FONT, hook_set_wide_font⟩
def hook_begin_keyword : EB_Hook := ⟨EB_HOOK_BEGIN_KEYWORD, hook_set_begin_keyword⟩
def hook_end_keyword : EB_Hook := ⟨EB_HOOK_END_KEYWORD, hook_set_end_keyword⟩
def hook_begin_emphasis : EB_Hook := ⟨EB_HOOK_BEGIN_EMPHASIS, hook_set_begin_emphasis⟩
def hook_end_emphasis : EB_Hook := ⟨EB_HOOK_END_EMPHASIS, hook_set_end_emphasis⟩
def hook_begin_reference : EB_Hook := ⟨EB_HOOK_BEGIN_REFERENCE, hook_set_begin_reference⟩
def hook_end_reference : EB_Hook := ⟨EB_HOOK_END_REFERENCE, hook_set_end_reference⟩

/-- A hookset: one slot per hook code, empty or holding a handler. -/
abbrev EB_Hookset := EB_Hook_Code → Option Hook_Function

/-- Library call `eb_initialize_hookset`: every slot empty. -/
def eb_initialize_hookset : EB_Hookset := fun _ => none

/-- Library call `eb_set_hook`: store the handler in the slot of its code. -/
def eb_set_hook (hookset : EB_Hookset) (hook : EB_Hook) : EB_Hookset :=
  fun c => if c = hook.code then some hook.function else hookset c

/-- A hook is registered when its slot holds its handler. -/
def registered (hookset : EB_Hookset) (hook : EB_Hook) : Prop :=
  hookset hook.code = some hook.function

instance (hookset : EB_Hookset) (hook : EB_Hook) : Decidable (registered hookset hook) := by
  unfold registered; infer_instance

/-- The globals set by `parse_command_line` (declared in `eplkup_data.h`, lines 59-63). -/
structure Config where
  set_emphasis_hook : Int
  set_keyword_hook : Int
  set_reference_hook : Int
  set_subscript_hook : Int
  set_superscript_hook : Int
  hit_to_output : Int
  max_hits_to_output : Int
  print_heading : Int
  print_text : Int
  print_hit_number : Int
  show_hit_count : Int

/-- Lines 109-143 of `WinMain`: the hookset after the `eb_set_hook` calls. -/
def WinMain_hookset (cfg : Config) : EB_Hookset :=
  let hookset := eb_initialize_hookset
  let hookset := eb_set_hook hookset hook_narrow_font
  let hookset := eb_set_hook hookset hook_wide_font
  let hookset :=
    if cfg.set_emphasis_hook ≠ 0 then
      eb_set_hook (eb_set_hook hookset hook_begin_emphasis) hook_end_emphasis
    else hookset
  let hookset :=
    if cfg.set_keyword_hook ≠ 0 then
      eb_set_hook (eb_set_hook hookset hook_begin_keyword) hook_end_keyword
    else hookset
  let hookset :=
    if cfg.set_reference_hook ≠ 0 then
      eb_set_hook (eb_set_hook hookset hook_begin_reference) hook_end_reference
    else hookset
  let hookset :=
    if cfg.set_subscript_hook ≠ 0 then
      eb_set_hook (eb_set_hook hookset hook_begin_subscript) hook_end_subscript
    else hookset
  let hookset :=
    if cfg.set_superscript_hook ≠ 0 then
      eb_set_hook (eb_set_hook hookset hook_begin_superscript) hook_end_superscript
    else hookset
  hookset

/-! ## The search-result loop (lines 265-412) -/

/-- A seek position of the EB library. -/
structure EB_Position where
  page : Int
  offset : Int
  deriving DecidableEq, Repr

/-- One search hit: the positions of its heading and of its text. -/
structure EB_Hit where
  heading : EB_Position
  text : EB_Position
  deriving DecidableEq, Repr

/-- What the loop calls and does not define: the EB library (`eb_seek_text`,
`eb_read_heading`, `eb_read_text`), `convert_encoding` of `eplkup_utils` (here always
from EUC-JP to UTF-8, `none` for a `NULL` result, the value being the new content of
`conv_buf`) and `replace_gaiji_with_utf8` of `eplkup_gaiji` (the value being the new
content of `final_buf`).  A read returns the bytes placed in the buffer; their number
is the reported length. -/
structure Collaborators where
  eb_seek_text : EB_Position → Bool
  eb_read_heading : EB_Hookset → EB_Position → Option Bytes
  eb_read_text : EB_Hookset → EB_Position → Option Bytes
  convert_encoding : Bytes → Int → Option Bytes
  replace_gaiji_with_utf8 : Bytes → Bytes

/-- Which piece of a hit a call is about. -/
inductive Part where
  | heading
  | text
  deriving DecidableEq, Repr

/-- The actions of the loop, as they are logged in program order.
* `eb_hit_list ok n`: the call of line 268, its status and the `hit_count` it stored;
* `fopen_w`, `fclose`: `fopen(out_path, "w")` of line 283, `fclose` of lines 390, 404;
* `fprintf_hits n`: the `{HITS: n}` line of line 288;
* `hit i`: the body of the `for` loop is entered for `hits[i]` (`i` as it stands after
  line 301);
* `fprintf_entry i`: the `{ENTRY: i}` line of line 306;
* `eb_seek_text i part ok`: `eb_seek_text` on the heading or text position of
  `hits[i]` and whether it succeeded;
* `eb_read i part ok`: `eb_read_heading` or `eb_read_text` and whether it succeeded;
* `convert_encoding i part ok`: the conversion and whether it returned non-NULL;
* `replace_gaiji_with_utf8 i part`: the substitution into `final_buf`;
* `write i part b`: the bytes `b` put into the file by line 343 or line 381;
* `eb_finalize_book`, `eb_finalize_library`, `eb_finalize_hookset`: the cleanup. -/
inductive Event where
  | eb_hit_list (ok : Bool) (hit_count : Int)
  | fopen_w
  | fclose
  | fprintf_hits (hit_count : Int)
  | hit (i : Int)
  | fprintf_entry (i : Int)
  | eb_seek_text (i : Int) (part : Part) (ok : Bool)
  | eb_read (i : Int) (part : Part) (ok : Bool)
  | convert_encoding (i : Int) (part : Part) (ok : Bool)
  | replace_gaiji_with_utf8 (i : Int) (part : Part)
  | write (i : Int) (part : Part) (b : Bytes)
  | eb_finalize_book
  | eb_finalize_library
  | eb_finalize_hookset
  deriving DecidableEq, Repr

/-- The pointer `out_file`: NULL (lines 78, 104), pointing to the FILE that line 283
opened, or still pointing to a FILE that line 390 has closed (the pointer is not reset
to NULL there, unlike at line 104). -/
inductive File_Pointer where
  | null
  | opened
  | closed
  deriving DecidableEq, Repr

/-- Program state of the loop: the content of the output file, the pointer `out_file`,
the `text` buffer with `text_length`, the array `hits`, and the log of actions so
far. -/
structure State where
  out : Bytes
  out_file : File_Pointer
  text : Bytes
  text_length : Int
  hits : Int → EB_Hit
  trace : List Event

/-- Record an action. -/
def State.log (s : State) (e : Event) : State :=
  { s with trace := s.trace ++ [e] }

/-- Line 390: `fclose(out_file)` after the hits of a batch; the pointer keeps its
value and now refers to a closed FILE. -/
def State.fclose (s : State) : State :=
  { s with out_file := .closed, trace := s.trace ++ [.fclose] }

/-- Append bytes to the open output file, recording the action. -/
def State.emit (s : State) (e : Event) (b : Bytes) : State :=
  { s with out := s.out ++ b, trace := s.trace ++ [e] }

/-- Either control continues with a state, or it jumps to `die`. -/
inductive Flow where
  | ok (s : State)
  | die (s : State)

/-- The state a flow carries. -/
def Flow.state : Flow → State
  | .ok s => s
  | .die s => s

/-- A finished run: the final state, the status passed to `exit`, and whether the run
has called `fclose` on a FILE that was already closed.  The C standard gives such a
call no defined behaviour: when `undefined` holds, the log up to that call is what the
program did, and nothing is said about what the process does afterwards, its exit
status included (`exit_code` then only keeps the status `die` was heading for). -/
structure Run where
  state : State
  exit_code : Int
  undefined : Bool

/-- Lines 309-344: the heading of `hits[i]`. -/
def heading_block (cfg : Config) (lib : Collaborators) (hookset : EB_Hookset)
    (i : Int) (s : State) : Flow :=
  if cfg.print_heading ≠ 0 then
    if lib.eb_seek_text (s.hits i).heading then
      let s := s.log (.eb_seek_text i .heading true)
      match lib.eb_read_heading hookset (s.hits i).heading with
      | none => .die (s.log (.eb_read i .heading false))
      | some heading =>
        let s := s.log (.eb_read i .heading true)
        let heading_length : Int := heading.length
        match lib.convert_encoding heading heading_length with
        | none => .die (s.log (.convert_encoding i .heading false))
        | some conv_buf =>
          let s := s.log (.convert_encoding i .heading true)
          let _final_buf := lib.replace_gaiji_with_utf8 conv_buf
          let s := s.log (.replace_gaiji_with_utf8 i .heading)
          .ok (s.emit (.write i .heading (c_str conv_buf ++ ascii "\n"))
                (c_str conv_buf ++ ascii "\n"))
    else .die (s.log (.eb_seek_text i .heading false))
  else .ok s

/-- Lines 346-381: the text of `hits[i]`. -/
def text_block (cfg : Config) (lib : Collaborators) (hookset : EB_Hookset)
    (i : Int) (s : State) : Flow :=
  let read : Flow :=
    if cfg.print_text ≠ 0 then
      if lib.eb_seek_text (s.hits i).text then
        let s := s.log (.eb_seek_text i .text true)
        match lib.eb_read_text hookset (s.hits i).text with
        | none => .die (s.log (.eb_read i .text false))
        | some text =>
          .ok { s.log (.eb_read i .text true) with text := text, text_length := text.length }
      else .die (s.log (.eb_seek_text i .text false))
    else .ok s
  match read with
  | .die s => .die s
  | .ok s =>
    match lib.convert_encoding s.text s.text_length with
    | none => .die (s.log (.convert_encoding i .text false))
    | some conv_buf =>
      let s := s.log (.convert_encoding i .text true)
      let final_buf := lib.replace_gaiji_with_utf8 conv_buf
      let s := s.log (.replace_gaiji_with_utf8 i .text)
      .ok (s.emit (.write i .text (c_str final_buf)) (c_str final_buf))

/-- Lines 303-381: the body of the `for` loop once `i` is fixed. -/
def hit_body (cfg : Config) (lib : Collaborators) (hookset : EB_Hookset)
    (hit_count : Int) (i : Int) (s : State) : Flow :=
  let s := s.log (.hit i)
  let s :=
    if cfg.print_hit_number ≠ 0 ∧ hit_count > 1 ∧ cfg.hit_to_output = -1 then
      s.emit (.fprintf_entry i) (entry_banner i)
    else s
  match heading_block cfg lib hookset i s with
  | .die s => .die s
  | .ok s => text_block cfg lib hookset i s

/-- Lines 295-388: `for(i = 0; i < hit_count; i++)`, entered with the current `i`.
The first argument bounds the number of iterations still to run; `while_hits` passes
`hit_count`, which the loop test never lets it exceed. -/
def for_hits (cfg : Config) (lib : Collaborators) (hookset : EB_Hookset)
    (hit_count : Int) : Nat → Int → State → Flow
  | 0, _, s => .ok s
  | fuel + 1, i, s =>
    if i < hit_count then
      let i := if cfg.hit_to_output ≥ 0 then cfg.hit_to_output else i
      match hit_body cfg lib hookset hit_count i s with
      | .die s => .die s
      | .ok s =>
        if cfg.hit_to_output ≥ 0 then .ok s
        else for_hits cfg lib hookset hit_count fuel (i + 1) s
    else .ok s

/-- Lines 400-410: the `die` label.  With `out_file` NULL the `fclose` is skipped; with
an open FILE it is closed; with the stale pointer that line 390 leaves behind, line
404 closes the FILE a second time and the run leaves defined behaviour there. -/
def die (s : State) : Run :=
  match s.out_file with
  | .closed => ⟨s.log .fclose, 1, true⟩
  | .opened =>
    let s := s.log .fclose
    let s := s.log .eb_finalize_book
    let s := s.log .eb_finalize_library
    let s := s.log .eb_finalize_hookset
    ⟨s, 1, false⟩
  | .null =>
    let s := s.log .eb_finalize_book
    let s := s.log .eb_finalize_library
    let s := s.log .eb_finalize_hookset
    ⟨s, 1, false⟩

/-- Lines 393-397: the cleanup after the loop. -/
def cleanup (s : State) : Run :=
  let s := s.log .eb_finalize_book
  let s := s.log .eb_finalize_library
  let s := s.log .eb_finalize_hookset
  ⟨s, 0, false⟩

/-- Store a batch of hits in the array `hits`: entry `j` of the batch goes to
`hits[j]`, the other entries keep what they held. -/
def store_hits (hits : Int → EB_Hit) (batch : List EB_Hit) : Int → EB_Hit :=
  fun j => if 0 ≤ j then (batch.get? j.toNat).getD (hits j) else hits j

/-- Lines 268-292 for a batch with at least one hit: `eb_hit_list` stores the batch,
the output file is created anew, and the `{HITS: n}` line is printed on request. -/
def open_batch (cfg : Config) (batch : List EB_Hit) (s : State) : State :=
  let hit_count : Int := batch.length
  let s := { s.log (.eb_hit_list true hit_count) with hits := store_hits s.hits batch }
  let s := { s.log .fopen_w with out := [], out_file := .opened }
  if cfg.show_hit_count ≠ 0 then s.emit (.fprintf_hits hit_count) (hits_banner hit_count)
  else s

/-- Lines 265-412: `while(1)` over the successive answers of `eb_hit_list`
(`none`: an error code; `some batch`: the hits it stored).  Once the answers are
used up the library reports zero hits. -/
def while_hits (cfg : Config) (lib : Collaborators) (hookset : EB_Hookset) :
    List (Option (List EB_Hit)) → State → Run
  | [], s => cleanup (s.log (.eb_hit_list true 0))
  | none :: _, s => die (s.log (.eb_hit_list false 0))
  | some [] :: _, s => cleanup (s.log (.eb_hit_list true 0))
  | some (h :: t) :: rest, s =>
    let hit_count : Int := (h :: t).length
    let s := open_batch cfg (h :: t) s
    let hit_count := min hit_count cfg.max_hits_to_output
    match for_hits cfg lib hookset hit_count hit_count.toNat 0 s with
    | .die s => die s
    | .ok s => while_hits cfg lib hookset rest s.fclose

/-- The state in which the loop is entered: the output file has been blanked and
closed (lines 102-104), the static `text` buffer is all NUL, `text_length` and `hits`
hold whatever values they happen to hold. -/
def initial_state (MAXLEN_TEXT : Nat) (text_length : Int) (hits : Int → EB_Hit) : State :=
  { out := [], out_file := .null, text := List.replicate (MAXLEN_TEXT + 1) 0,
    text_length := text_length, hits := hits, trace := [] }

/-- The hit list "returns the batch and then zero": either no further answer is
recorded or the next answer is an empty batch. -/
def reports_zero (rest : List (Option (List EB_Hit))) : Prop :=
  rest = [] ∨ ∃ t, rest = some [] :: t

/-! ## Observations on the log -/

/-- A collaborator call that reported an error. -/
def Event.failed : Event → Bool
  | .eb_hit_list ok _ => !ok
  | .eb_seek_text _ _ ok => !ok
  | .eb_read _ _ ok => !ok
  | .convert_encoding _ _ ok => !ok
  | _ => false

/-- The action is a seek, read, conversion, substitution or write for `hits[i]`. -/
def Event.in_block (i : Int) : Event → Bool
  | .eb_seek_text j _ _ => j = i
  | .eb_read j _ _ => j = i
  | .convert_encoding j _ _ => j = i
  | .replace_gaiji_with_utf8 j _ => j = i
  | .write j _ _ => j = i
  | _ => false

/-- The actions that release resources after the loop or at `die`. -/
def Event.closing : Event → Bool
  | .fclose => true
  | .eb_finalize_book => true
  | .eb_finalize_library => true
  | .eb_finalize_hookset => true
  | _ => false

/-- The bytes an action puts into the output file. -/
def Event.bytes : Event → Bytes
  | .fprintf_hits n => hits_banner n
  | .fprintf_entry i => entry_banner i
  | .write _ _ b => b
  | _ => []

/-- The index of `hits` whose heading or text position a seek uses. -/
def Event.seek_index : Event → Option Int
  | .eb_seek_text i _ _ => some i
  | _ => none

/-- The loop-body entries of a log, in order: the `i` of every `hit i`. -/
def iterations (es : List Event) : List Int :=
  es.filterMap (fun e => match e with
    | .hit i => some i
    | _ => none)

/-- The `{ENTRY: i}` banners of a log, in order. -/
def entries (es : List Event) : List Int :=
  es.filterMap (fun e => match e with
    | .fprintf_entry i => some i
    | _ => none)

/-- Control continued (no jump to `die`). -/
def Flow.is_ok : Flow → Bool
  | .ok _ => true
  | .die _ => false

/-- No call in the list failed. -/
def clean (es : List Event) : Prop := ∀ e ∈ es, e.failed = false

/-- The list ends with a failed call and holds no other failure. -/
def aborted (es : List Event) : Prop :=
  ∃ pre e, es = pre ++ [e] ∧ e.failed = true ∧ clean pre

/-- The integers `i, i + 1, ..., i + n - 1`. -/
def indices_from (i : Int) : Nat → List Int
  | 0 => []
  | n + 1 => i :: indices_from (i + 1) n

/-- The bytes a list of actions puts into the output file. -/
def written (es : List Event) : Bytes := (es.map Event.bytes).flatten

/-- The actions that open the body of the loop for `hits[i]`: the entry itself and,
when `banner` holds, the `{ENTRY: i}` line. -/
def hit_opening (banner : Bool) (i : Int) : List Event :=
  .hit i :: (if banner then [.fprintf_entry i] else [])

/-- What a stretch of the loop does to the state `s`: it appends actions to the log
and their bytes to the file, leaves `hits` and `out_file` alone, and jumps to `die`
exactly when its last action failed. -/
def loop_spec (s : State) (f : Flow) (es : List Event) : Prop :=
  f.state.trace = s.trace ++ es ∧ f.state.out = s.out ++ written es ∧
    f.state.hits = s.hits ∧ f.state.out_file = s.out_file ∧
    (f.is_ok = true → clean es) ∧ (f.is_ok = false → aborted es)

/-- What one block of the loop body does: a stretch of actions, all of them for
`hits[i]`. -/
def block_spec (i : Int) (s : State) (f : Flow) : Prop :=
  ∃ es, loop_spec s f es ∧ ∀ e ∈ es, e.in_block i = true

/-- The log of a batch splits into one segment per rendered index, in order: the
segment of `i` starts with `hit i`, then the `{ENTRY: i}` line when `banner` holds,
then only seeks, reads, conversions, substitutions and writes for `hits[i]`. -/
def rendered (banner : Bool) : List Int → List Event → Prop
  | [], es => es = []
  | i :: is, es =>
    ∃ blk rest, es = hit_opening banner i ++ blk ++ rest ∧
      (∀ e ∈ blk, e.in_block i = true) ∧ rendered banner is rest

/-- The test of line 304, with the `hit_count` of line 292. -/
def entry_banner_shown (cfg : Config) (hit_count : Int) : Bool :=
  decide (cfg.print_hit_number ≠ 0 ∧ hit_count > 1 ∧ cfg.hit_to_output = -1)

/-- The actions of lines 268-289 for a batch of `n` hits. -/
def batch_opening (cfg : Config) (n : Int) : List Event :=
  [.eb_hit_list true n, .fopen_w] ++ (if cfg.show_hit_count ≠ 0 then [.fprintf_hits n] else [])

/-- The actions after the last batch: `fclose`, the `eb_hit_list` call that reports
zero hits, and the cleanup; or, at `die`, `fclose` and the cleanup. -/
def Event.ending (e : Event) : Bool :=
  e.closing || decide (e = .eb_hit_list true 0)

/-! ## Sample collaborators and inputs -/

/-- A sample library: every seek succeeds; the heading at a position reads as `H`, the
digit of its page and the byte 128; the text reads as `T`, the digit and the byte 128;
conversion copies the `inbuf_len` bytes and terminates them with NUL; substitution
turns the byte 128 (standing for an external glyph) into `?`. -/
def sample_lib : Collaborators where
  eb_seek_text := fun _ => true
  eb_read_heading := fun _ p => some [72, 48 + p.page.toNat, 128]
  eb_read_text := fun _ p => some [84, 48 + p.page.toNat, 128]
  convert_encoding := fun b n => some (b.take n.toNat ++ [0])
  replace_gaiji_with_utf8 := fun b => b.map (fun c => if c = 128 then 63 else c)

/-- The sample hit on page `n`. -/
def sample_hit (n : Int) : EB_Hit := ⟨⟨n, 0⟩, ⟨n, 1⟩⟩

/-- Three sample hits. -/
def three_hits : List EB_Hit := [sample_hit 0, sample_hit 1, sample_hit 2]

/-- The configuration without options: no markup hooks, no selected hit, up to five
hits, heading and text printed, no `{ENTRY: n}` and no `{HITS: n}` line. -/
def plain_cfg : Config where
  set_emphasis_hook := 0
  set_keyword_hook := 0
  set_reference_hook := 0
  set_subscript_hook := 0
  set_superscript_hook := 0
  hit_to_output := -1
  max_hits_to_output := 5
  print_heading := 1
  print_text := 1
  print_hit_number := 0
  show_hit_count := 0

/-- A sample starting state: a `text` buffer of five NUL bytes, `text_length` 0 and
every entry of `hits` holding the hit of page 9. -/
def sample_state : State := initial_state 4 0 (fun _ => sample_hit 9)

/-- The plain configuration with `--hit 1 --hit-num`. -/
def selected_cfg : Config :=
  { plain_cfg with hit_to_output := 1, print_hit_number := 1 }

/-- The plain configuration with `--show-count`. -/
def count_cfg : Config :=
  { plain_cfg with show_hit_count := 1 }

/-- The plain configuration with `--hit-num`. -/
def hit_num_cfg : Config :=
  { plain_cfg with print_hit_number := 1 }

/-- The plain configuration with `--hit-num --max-hits 1`. -/
def capped_cfg : Config :=
  { plain_cfg with print_hit_number := 1, max_hits_to_output := 1 }

/-- The plain configuration with `--no-text`. -/
def no_text_cfg : Config :=
  { plain_cfg with print_text := 0 }

/-- The sample library with a converter that rejects a length that is negative or
beyond the buffer. -/
def strict_lib : Collaborators :=
  { sample_lib with
    convert_encoding := fun b n =>
      if n < 0 ∨ (b.length : Int) < n then none else some (b.take n.toNat ++ [0]) }

/-- The closing actions of a run. -/
def finalizers : List Event :=
  [.eb_finalize_book, .eb_finalize_library, .eb_finalize_hookset]

/-- What `parse_command_line` lets through for `--hit` (lines 469-479) and
`--max-hits` (lines 500-510): `hit_to_output` keeps its value -1 of "no hit selected"
(the value line 304 tests for) or is the non-negative number given, and
`max_hits_to_output` lies between 1 and `MAX_HITS`. -/
def parser_accepts (MAX_HITS : Int) (cfg : Config) : Prop :=
  (cfg.hit_to_output = -1 ∨ 0 ≤ cfg.hit_to_output) ∧
    1 ≤ cfg.max_hits_to_output ∧ cfg.max_hits_to_output ≤ MAX_HITS

instance (MAX_HITS : Int) (cfg : Config) : Decidable (parser_accepts MAX_HITS cfg) := by
  unfold parser_accepts; infer_instance

/-- The indices `i` of the `hits[i]` whose heading or text position is read for a
seek, in program order. -/
def seek_indices (es : List Event) : List Int := es.filterMap Event.seek_index

/-- The plain configuration with `--hit 5`. -/
def out_of_range_cfg : Config :=
  { plain_cfg with hit_to_output := 5 }

/-! ## What a hit puts into the file -/

/-- The heading line of a hit as lines 309-344 put it into the file: nothing when
headings are off, and no value when the seek, the read or the conversion fails. -/
def heading_line (cfg : Config) (lib : Collaborators) (hookset : EB_Hookset)
    (hit : EB_Hit) : Option Bytes :=
  if cfg.print_heading ≠ 0 then
    if lib.eb_seek_text hit.heading then
      match lib.eb_read_heading hookset hit.heading with
      | none => none
      | some hb =>
        match lib.convert_encoding hb hb.length with
        | none => none
        | some hc => some (c_str hc ++ ascii "\n")
    else none
  else some []

/-- The body of a hit as lines 346-381 put it into the file, and no value when a call
fails.  With the text on, it is the substituted conversion of the text read at the
hit's text position; with the text off, lines 368-381 still run, on the `text` buffer
and `text_length` as they stand. -/
def body_bytes (cfg : Config) (lib : Collaborators) (hookset : EB_Hookset)
    (text : Bytes) (text_length : Int) (hit : EB_Hit) : Option Bytes :=
  if cfg.print_text ≠ 0 then
    if lib.eb_seek_text hit.text then
      match lib.eb_read_text hookset hit.text with
      | none => none
      | some tb =>
        match lib.convert_encoding tb tb.length with
        | none => none
        | some tc => some (c_str (lib.replace_gaiji_with_utf8 tc))
    else none
  else
    match lib.convert_encoding text text_length with
    | none => none
    | some tc => some (c_str (lib.replace_gaiji_with_utf8 tc))

/-- What the hits of a list, numbered from `i` on, put into the file one after the
other: for each hit the `{ENTRY: i}` line when `banner` holds, its heading line and its
body; no value when a call for one of them fails. -/
def hits_content (cfg : Config) (lib : Collaborators) (hookset : EB_Hookset)
    (text : Bytes) (text_length : Int) (banner : Bool) : Int → List EB_Hit → Option Bytes
  | _, [] => some []
  | i, hit :: rest =>
    match heading_line cfg lib hookset hit, body_bytes cfg lib hookset text text_length hit,
      hits_content cfg lib hookset text text_length banner (i + 1) rest with
    | some h, some b, some r => some ((if banner then entry_banner i else []) ++ h ++ b ++ r)
    | _, _, _ => none

/-- The sample library with a seek that fails on page 1. -/
def broken_seek_lib : Collaborators :=
  { sample_lib with eb_seek_text := fun p => decide (p.page ≠ 1) }

/-- A seek, a read or a conversion for some hit that failed. -/
def Event.render_failure : Event → Bool
  | .eb_seek_text _ _ ok => !ok
  | .eb_read _ _ ok => !ok
  | .convert_encoding _ _ ok => !ok
  | _ => false

/-- An action that puts nothing of a body into the file: not a seek or a read of a
text position, and not a write of text bytes other than the empty string. -/
def Event.no_body : Event → Bool
  | .eb_seek_text _ .text _ => false
  | .eb_read _ .text _ => false
  | .write _ .text b => decide (b = [])
  | _ => true

/-- What the banners and headings of the hits of a list, numbered from `i` on, put
into the file: for each hit the `{ENTRY: i}` line when `banner` holds and its heading
line; no value when a call for a heading fails. -/
def headings_content (cfg : Config) (lib : Collaborators) (hookset : EB_Hookset)
    (banner : Bool) : Int → List EB_Hit → Option Bytes
  | _, [] => some []
  | i, hit :: rest =>
    match heading_line cfg lib hookset hit,
      headings_content cfg lib hookset banner (i + 1) rest with
    | some h, some r => some ((if banner then entry_banner i else []) ++ h ++ r)
    | _, _ => none

/-! ## Hook registration -/

theorem slot_eq (cfg : Config) (c : EB_Hook_Code) :
    WinMain_hookset cfg c =
      match c with
      | EB_HOOK_NARROW_FONT => some hook_set_narrow_font
      | EB_HOOK_WIDE_FONT => some hook_set_wide_font
      | EB_HOOK_BEGIN_EMPHASIS =>
        if cfg.set_emphasis_hook ≠ 0 then some hook_set_begin_emphasis else none
      | EB_HOOK_END_EMPHASIS =>
        if cfg.set_emphasis_hook ≠ 0 then some hook_set_end_emphasis else none
      | EB_HOOK_BEGIN_KEYWORD =>
        if cfg.set_keyword_hook ≠ 0 then some hook_set_begin_keyword else none
      | EB_HOOK_END_KEYWORD =>
        if cfg.set_keyword_hook ≠ 0 then some hook_set_end_keyword else none
      | EB_HOOK_BEGIN_REFERENCE =>
        if cfg.set_reference_hook ≠ 0 then some hook_set_begin_reference else none
      | EB_HOOK_END_REFERENCE =>
        if cfg.set_reference_hook ≠ 0 then some hook_set_end_reference else none
      | EB_HOOK_BEGIN_SUBSCRIPT =>
        if cfg.set_subscript_hook ≠ 0 then some hook_set_begin_subscript else none
      | EB_HOOK_END_SUBSCRIPT =>
        if cfg.set_subscript_hook ≠ 0 then some hook_set_end_subscript else none
      | EB_HOOK_BEGIN_SUPERSCRIPT =>
        if cfg.set_superscript_hook ≠ 0 then some hook_set_begin_superscript else none
      | EB_HOOK_END_SUPERSCRIPT =>
        if cfg.set_superscript_hook ≠ 0 then some hook_set_end_superscript else none
      | EB_HOOK_OTHER _ => none := by
  cases c <;>
  simp [WinMain_hookset, eb_set_hook, eb_initialize_hookset, ite_apply,
    hook_begin_subscript, hook_begin_superscript, hook_end_subscript, hook_end_superscript,
    hook_narrow_font, hook_wide_font, hook_begin_keyword, hook_end_keyword,
    hook_begin_emphasis, hook_end_emphasis, hook_begin_reference, hook_end_reference]

/-! ## Lists of actions -/

theorem clean_nil : clean [] := by simp [clean]

theorem clean_cons (e : Event) (t : List Event) :
    clean (e :: t) ↔ e.failed = false ∧ clean t := by
  simp [clean]

theorem clean_append (t u : List Event) : clean (t ++ u) ↔ clean t ∧ clean u := by
  simp [clean, or_imp, forall_and]

theorem aborted_nil : ¬ aborted [] := by
  rintro ⟨pre, e, h, _⟩
  simp at h

theorem aborted_singleton (e : Event) : aborted [e] ↔ e.failed = true := by
  constructor
  · rintro ⟨pre, e', h, hf, _⟩
    have h' : ([] : List Event) ++ [e] = pre ++ [e'] := by simpa using h
    obtain ⟨_, h2⟩ := List.append_inj' h' rfl
    simp at h2
    subst h2
    exact hf
  · intro hf
    exact ⟨[], e, rfl, hf, clean_nil⟩

theorem aborted_append (t u : List Event) (ht : clean t) :
    aborted (t ++ u) ↔ aborted u := by
  constructor
  · rintro ⟨pre, e, h, hf, hc⟩
    rcases List.eq_nil_or_concat u with rfl | ⟨u', e', rfl⟩
    · simp at h
      subst h
      have := ht e (by simp)
      simp [hf] at this
    · rw [List.concat_eq_append, ← List.append_assoc] at h
      obtain ⟨h1, h2⟩ := List.append_inj' h rfl
      simp at h2
      subst h2
      subst h1
      exact ⟨u', e', by simp, hf, ((clean_append t u').1 hc).2⟩
  · rintro ⟨pre, e, rfl, hf, hc⟩
    exact ⟨t ++ pre, e, by simp, hf, (clean_append t pre).2 ⟨ht, hc⟩⟩

theorem aborted_cons (a : Event) (t : List Event) (ha : a.failed = false) :
    aborted (a :: t) ↔ aborted t := by
  have := aborted_append [a] t (by simp [clean, ha])
  simpa using this

theorem written_nil : written [] = [] := rfl

theorem written_cons (e : Event) (t : List Event) :
    written (e :: t) = e.bytes ++ written t := by
  simp [written]

theorem written_append (t u : List Event) : written (t ++ u) = written t ++ written u := by
  simp [written]

/-! ## The blocks of the loop body -/

theorem heading_block_spec (cfg : Config) (lib : Collaborators) (hookset : EB_Hookset)
    (i : Int) (s : State) : block_spec i s (heading_block cfg lib hookset i s) := by
  unfold heading_block block_spec loop_spec
  by_cases hp : cfg.print_heading = 0
  · exact ⟨[], by simp [hp, Flow.state, Flow.is_ok, clean_nil, written_nil]⟩
  · cases hs : lib.eb_seek_text (s.hits i).heading with
    | false =>
      refine ⟨[.eb_seek_text i .heading false], ?_⟩
      simp [hp, hs, Flow.state, Flow.is_ok, State.log, Event.failed, Event.in_block,
        aborted_singleton, written_cons, written_nil, Event.bytes]
    | true =>
      cases hr : lib.eb_read_heading hookset (s.hits i).heading with
      | none =>
        refine ⟨[.eb_seek_text i .heading true, .eb_read i .heading false], ?_⟩
        simp [hp, hs, hr, Flow.state, Flow.is_ok, State.log, Event.failed, Event.in_block,
          aborted_singleton, aborted_cons, written_cons, written_nil, Event.bytes]
      | some hb =>
        cases hv : lib.convert_encoding hb hb.length with
        | none =>
          refine ⟨[.eb_seek_text i .heading true, .eb_read i .heading true,
            .convert_encoding i .heading false], ?_⟩
          simp [hp, hs, hr, hv, Flow.state, Flow.is_ok, State.log, Event.failed,
            Event.in_block, aborted_singleton, aborted_cons, written_cons, written_nil,
            Event.bytes]
        | some cb =>
          refine ⟨[.eb_seek_text i .heading true, .eb_read i .heading true,
            .convert_encoding i .heading true, .replace_gaiji_with_utf8 i .heading,
            .write i .heading (c_str cb ++ ascii "\n")], ?_⟩
          simp [hp, hs, hr, hv, Flow.state, Flow.is_ok, State.log, State.emit, Event.failed,
            Event.in_block, clean_cons, clean_nil, written_cons, written_nil, Event.bytes]

theorem text_block_spec (cfg : Config) (lib : Collaborators) (hookset : EB_Hookset)
    (i : Int) (s : State) : block_spec i s (text_block cfg lib hookset i s) := by
  unfold text_block block_spec loop_spec
  by_cases hp : cfg.print_text = 0
  · cases hv : lib.convert_encoding s.text s.text_length with
    | none =>
      refine ⟨[.convert_encoding i .text false], ?_⟩
      simp [hp, hv, Flow.state, Flow.is_ok, State.log, Event.failed, Event.in_block,
        aborted_singleton, written_cons, written_nil, Event.bytes]
    | some cb =>
      refine ⟨[.convert_encoding i .text true, .replace_gaiji_with_utf8 i .text,
        .write i .text (c_str (lib.replace_gaiji_with_utf8 cb))], ?_⟩
      simp [hp, hv, Flow.state, Flow.is_ok, State.log, State.emit, Event.failed,
        Event.in_block, clean_cons, clean_nil, written_cons, written_nil, Event.bytes]
  · cases hs : lib.eb_seek_text (s.hits i).text with
    | false =>
      refine ⟨[.eb_seek_text i .text false], ?_⟩
      simp [hp, hs, Flow.state, Flow.is_ok, State.log, Event.failed, Event.in_block,
        aborted_singleton, written_cons, written_nil, Event.bytes]
    | true =>
      cases hr : lib.eb_read_text hookset (s.hits i).text with
      | none =>
        refine ⟨[.eb_seek_text i .text true, .eb_read i .text false], ?_⟩
        simp [hp, hs, hr, Flow.state, Flow.is_ok, State.log, Event.failed, Event.in_block,
          aborted_singleton, aborted_cons, written_cons, written_nil, Event.bytes]
      | some tb =>
        cases hv : lib.convert_encoding tb tb.length with
        | none =>
          refine ⟨[.eb_seek_text i .text true, .eb_read i .text true,
            .convert_encoding i .text false], ?_⟩
          simp [hp, hs, hr, hv, Flow.state, Flow.is_ok, State.log, Event.failed,
            Event.in_block, aborted_singleton, aborted_cons, written_cons, written_nil,
            Event.bytes]
        | some cb =>
          refine ⟨[.eb_seek_text i .text true, .eb_read i .text true,
            .convert_encoding i .text true, .replace_gaiji_with_utf8 i .text,
            .write i .text (c_str (lib.replace_gaiji_with_utf8 cb))], ?_⟩
          simp [hp, hs, hr, hv, Flow.state, Flow.is_ok, State.log, State.emit,
            Event.failed, Event.in_block, clean_cons, clean_nil, written_cons, written_nil,
            Event.bytes]

/-- Two stretches one after the other make a stretch. -/
theorem loop_spec_seq (s s1 : State) (f : Flow) (es1 es2 : List Event)
    (h1 : loop_spec s (.ok s1) es1) (h2 : loop_spec s1 f es2) :
    loop_spec s f (es1 ++ es2) := by
  obtain ⟨a1, a2, a3, a4, a5, _⟩ := h1
  obtain ⟨b1, b2, b3, b4, b5, b6⟩ := h2
  have hc : clean es1 := a5 rfl
  simp only [Flow.state] at a1 a2 a3 a4
  refine ⟨by rw [b1, a1, List.append_assoc], by rw [b2, a2, written_append, List.append_assoc],
    by rw [b3, a3], by rw [b4, a4], ?_, ?_⟩
  · intro h
    exact (clean_append _ _).2 ⟨hc, b5 h⟩
  · intro h
    exact (aborted_append _ _ hc).2 (b6 h)

theorem hit_body_spec (cfg : Config) (lib : Collaborators) (hookset : EB_Hookset)
    (hit_count i : Int) (s : State) :
    ∃ blk, loop_spec s (hit_body cfg lib hookset hit_count i s)
        (hit_opening (entry_banner_shown cfg hit_count) i ++ blk) ∧
      ∀ e ∈ blk, e.in_block i = true := by
  have h0 : ∃ s0, s0 = (if cfg.print_hit_number ≠ 0 ∧ hit_count > 1 ∧ cfg.hit_to_output = -1 then
        (s.log (.hit i)).emit (.fprintf_entry i) (entry_banner i) else s.log (.hit i)) ∧
      loop_spec s (.ok s0) (hit_opening (entry_banner_shown cfg hit_count) i) := by
    refine ⟨_, rfl, ?_⟩
    by_cases hb : cfg.print_hit_number ≠ 0 ∧ hit_count > 1 ∧ cfg.hit_to_output = -1
    · simp [hb, loop_spec, hit_opening, entry_banner_shown, Flow.state, Flow.is_ok, State.log,
        State.emit, clean_cons, clean_nil, Event.failed, written_cons, written_nil,
        Event.bytes]
    · simp [hb, loop_spec, hit_opening, entry_banner_shown, Flow.state, Flow.is_ok, State.log,
        State.emit, clean_cons, clean_nil, Event.failed, written_cons, written_nil,
        Event.bytes]
  obtain ⟨s0, hs0, hl0⟩ := h0
  have hbody : hit_body cfg lib hookset hit_count i s =
      match heading_block cfg lib hookset i s0 with
      | .die s => .die s
      | .ok s => text_block cfg lib hookset i s := by
    rw [hs0]; rfl
  obtain ⟨es1, hl1, hin1⟩ := heading_block_spec cfg lib hookset i s0
  rw [hbody]
  cases hh : heading_block cfg lib hookset i s0 with
  | die s1 =>
    rw [hh] at hl1
    refine ⟨es1, ?_, hin1⟩
    have := loop_spec_seq s s0 _ _ _ hl0 hl1
    simpa using this
  | ok s1 =>
    rw [hh] at hl1
    obtain ⟨es2, hl2, hin2⟩ := text_block_spec cfg lib hookset i s1
    refine ⟨es1 ++ es2, ?_, ?_⟩
    · have := loop_spec_seq s s0 _ _ _ hl0 (loop_spec_seq s0 s1 _ _ _ hl1 hl2)
      simpa using this
    · intro e he
      rcases List.mem_append.1 he with h | h
      · exact hin1 e h
      · exact hin2 e h

theorem loop_spec_refl (s : State) : loop_spec s (.ok s) [] := by
  simp [loop_spec, Flow.state, Flow.is_ok, clean_nil, written_nil]

/-! ## The `for` loop -/

theorem for_hits_spec (cfg : Config) (lib : Collaborators) (hookset : EB_Hookset)
    (hit_count : Int) (fuel : Nat) (i : Int) (s : State) :
    ∃ idx es, loop_spec s (for_hits cfg lib hookset hit_count fuel i s) es ∧
      rendered (entry_banner_shown cfg hit_count) idx es ∧
      (cfg.hit_to_output ≥ 0 →
        idx = if i < hit_count ∧ 0 < fuel then [cfg.hit_to_output] else []) ∧
      (cfg.hit_to_output < 0 → (hit_count - i).toNat ≤ fuel →
        ∃ m, idx = indices_from i m ∧ m ≤ (hit_count - i).toNat ∧
          ((for_hits cfg lib hookset hit_count fuel i s).is_ok = true →
            m = (hit_count - i).toNat) ∧
          ((for_hits cfg lib hookset hit_count fuel i s).is_ok = false → 0 < m)) := by
  induction fuel generalizing i s with
  | zero =>
    refine ⟨[], [], by simpa [for_hits] using loop_spec_refl s, rfl, by simp, ?_⟩
    intro _ hle
    exact ⟨0, rfl, by omega, by intro _; omega, by simp [for_hits, Flow.is_ok]⟩
  | succ fuel ih =>
    by_cases hlt : i < hit_count
    · by_cases hsel : cfg.hit_to_output ≥ 0
      · obtain ⟨blk, hl, hin⟩ := hit_body_spec cfg lib hookset hit_count cfg.hit_to_output s
        have hf : for_hits cfg lib hookset hit_count (fuel + 1) i s =
            hit_body cfg lib hookset hit_count cfg.hit_to_output s := by
          simp only [for_hits, hlt, hsel, if_true]
          cases hit_body cfg lib hookset hit_count cfg.hit_to_output s <;> rfl
        rw [hf]
        refine ⟨[cfg.hit_to_output], _, hl, ⟨blk, [], by simp, hin, rfl⟩, ?_, ?_⟩
        · intro _; simp [hlt]
        · intro h; omega
      · have hsel' : cfg.hit_to_output < 0 := by omega
        obtain ⟨blk, hl, hin⟩ := hit_body_spec cfg lib hookset hit_count i s
        cases hb : hit_body cfg lib hookset hit_count i s with
        | die s1 =>
          have hf : for_hits cfg lib hookset hit_count (fuel + 1) i s = .die s1 := by
            simp only [for_hits, hlt, hsel, if_true, if_false, hb]
          rw [hf]
          rw [hb] at hl
          refine ⟨[i], _, hl, ⟨blk, [], by simp, hin, rfl⟩, ?_, ?_⟩
          · intro h; omega
          · intro _ _
            exact ⟨1, rfl, by omega, by simp [Flow.is_ok], by simp⟩
        | ok s1 =>
          have hf : for_hits cfg lib hookset hit_count (fuel + 1) i s =
              for_hits cfg lib hookset hit_count fuel (i + 1) s1 := by
            simp only [for_hits, hlt, hsel, if_true, if_false, hb]
          rw [hf]
          rw [hb] at hl
          obtain ⟨idx, es, hl2, hr, _, hns⟩ := ih (i + 1) s1
          refine ⟨i :: idx, _, loop_spec_seq s s1 _ _ _ hl hl2, ⟨blk, es, rfl, hin, hr⟩, ?_, ?_⟩
          · intro h; omega
          · intro _ hle
            obtain ⟨m, hm, hm1, hm2, hm3⟩ := hns hsel' (by omega)
            refine ⟨m + 1, by rw [hm]; rfl, by omega, ?_, by intro _; omega⟩
            intro h
            have := hm2 h
            omega
    · have hf : for_hits cfg lib hookset hit_count (fuel + 1) i s = .ok s := by
        simp only [for_hits, hlt, if_false]
      rw [hf]
      refine ⟨[], [], loop_spec_refl s, rfl, by simp [hlt], ?_⟩
      intro _ _
      exact ⟨0, rfl, by omega, by intro _; omega, by simp [Flow.is_ok]⟩

/-- The bound on the iterations is never what stops the loop: any bound of at least
`hit_count - i` gives the result of the bound `hit_count - i`, which the test
`i < hit_count` uses up exactly. -/
theorem for_hits_fuel (cfg : Config) (lib : Collaborators) (hookset : EB_Hookset)
    (hit_count : Int) (fuel : Nat) (i : Int) (s : State)
    (h : (hit_count - i).toNat ≤ fuel) :
    for_hits cfg lib hookset hit_count fuel i s =
      for_hits cfg lib hookset hit_count (hit_count - i).toNat i s := by
  induction fuel generalizing i s with
  | zero =>
    have : (hit_count - i).toNat = 0 := by omega
    rw [this]
  | succ fuel ih =>
    by_cases hlt : i < hit_count
    · obtain ⟨k, hk⟩ : ∃ k, (hit_count - i).toNat = k + 1 :=
        ⟨(hit_count - i).toNat - 1, by omega⟩
      rw [hk]
      by_cases hsel : cfg.hit_to_output ≥ 0
      · simp only [for_hits, hlt, hsel, if_true]
      · simp only [for_hits, hlt, hsel, if_true, if_false]
        cases hit_body cfg lib hookset hit_count i s with
        | die s1 => rfl
        | ok s1 =>
          simp only []
          rw [ih (i + 1) s1 (by omega)]
          have : (hit_count - (i + 1)).toNat = k := by omega
          rw [this]
    · have : (hit_count - i).toNat = 0 := by omega
      rw [this]
      simp only [for_hits, hlt, if_false]

/-! ## Formatted numbers hold no newline -/

theorem digitChar_ne_newline (k : Nat) (hk : k < 10) : (Nat.digitChar k).toNat ≠ 10 := by
  interval_cases k <;> decide

theorem toDigitsCore_no_newline (fuel n : Nat) (ds : List Char)
    (hds : ∀ c ∈ ds, c.toNat ≠ 10) : ∀ c ∈ Nat.toDigitsCore 10 fuel n ds, c.toNat ≠ 10 := by
  induction fuel generalizing n ds with
  | zero => simpa [Nat.toDigitsCore] using hds
  | succ fuel ih =>
    have hd : ∀ c ∈ Nat.digitChar (n % 10) :: ds, c.toNat ≠ 10 := by
      intro c hc
      rcases List.mem_cons.1 hc with rfl | h
      · exact digitChar_ne_newline _ (Nat.mod_lt _ (by decide))
      · exact hds c h
    simp only [Nat.toDigitsCore]
    split
    · exact hd
    · exact ih _ _ hd

theorem fmt_d_no_newline (n : Int) : ∀ c ∈ fmt_d n, c ≠ 10 := by
  have key : ∀ k : Nat, ∀ c ∈ (Nat.toDigits 10 k).map Char.toNat, c ≠ 10 := by
    intro k c hc
    obtain ⟨d, hd, rfl⟩ := List.mem_map.1 hc
    exact toDigitsCore_no_newline _ _ [] (by simp) d hd
  intro c hc
  unfold fmt_d at hc
  split at hc
  · rcases List.mem_cons.1 hc with rfl | h
    · decide
    · exact key _ c h
  · exact key _ c hc

theorem first_line_append (a tail : Bytes) (ha : ∀ c ∈ a, c ≠ 10) :
    first_line (a ++ 10 :: tail) = a := by
  induction a with
  | nil => simp [first_line]
  | cons x a ih =>
    have hx : x ≠ 10 := ha x (by simp)
    have := ih (fun c hc => ha c (by simp [hc]))
    simp only [first_line] at this ⊢
    rw [List.cons_append, List.takeWhile_cons]
    simp [hx, this]

theorem first_line_hits_banner (n : Int) (tail : Bytes) :
    first_line (hits_banner n ++ tail) = ascii "\x7bHITS: " ++ fmt_d n ++ ascii "\x7d" := by
  have h : hits_banner n ++ tail =
      (ascii "\x7bHITS: " ++ fmt_d n ++ ascii "\x7d") ++ 10 :: tail := by
    simp [hits_banner, ascii]
  rw [h]
  apply first_line_append
  intro c hc
  have hl : ∀ c ∈ ascii "\x7bHITS: ", c ≠ 10 := by decide
  have hr : ∀ c ∈ ascii "\x7d", c ≠ 10 := by decide
  rcases List.mem_append.1 hc with h1 | h1
  · rcases List.mem_append.1 h1 with h2 | h2
    · exact hl c h2
    · exact fmt_d_no_newline n c h2
  · exact hr c h1

/-! ## The `while` loop -/

theorem die_state (s : State) :
    (die s).state.out = s.out ∧ (die s).exit_code = 1 ∧
      ∃ closing, (die s).state.trace = s.trace ++ closing ∧
        (∀ e ∈ closing, e.closing = true) := by
  unfold die
  cases s.out_file <;> simp [State.log, Event.closing]

theorem cleanup_state (s : State) :
    (cleanup s).state.out = s.out ∧ (cleanup s).exit_code = 0 ∧
      (cleanup s).state.trace = s.trace ++
        [.eb_finalize_book, .eb_finalize_library, .eb_finalize_hookset] := by
  simp [cleanup, State.log]

theorem while_hits_zero (cfg : Config) (lib : Collaborators) (hookset : EB_Hookset)
    (rest : List (Option (List EB_Hit))) (hrest : reports_zero rest) (s : State) :
    while_hits cfg lib hookset rest s = cleanup (s.log (.eb_hit_list true 0)) := by
  rcases hrest with rfl | ⟨t, rfl⟩ <;> rfl

theorem while_hits_cons (cfg : Config) (lib : Collaborators) (hookset : EB_Hookset)
    (h : EB_Hit) (t : List EB_Hit) (rest : List (Option (List EB_Hit))) (s : State) :
    while_hits cfg lib hookset (some (h :: t) :: rest) s =
      match for_hits cfg lib hookset (min ((h :: t).length : Int) cfg.max_hits_to_output)
          (min ((h :: t).length : Int) cfg.max_hits_to_output).toNat 0
          (open_batch cfg (h :: t) s) with
      | .die s => die s
      | .ok s => while_hits cfg lib hookset rest s.fclose := rfl

theorem open_batch_spec (cfg : Config) (batch : List EB_Hit) (s : State) :
    (open_batch cfg batch s).trace = s.trace ++ batch_opening cfg batch.length ∧
      (open_batch cfg batch s).out = written (batch_opening cfg batch.length) ∧
      (open_batch cfg batch s).hits = store_hits s.hits batch ∧
      (open_batch cfg batch s).out_file = .opened ∧
      (open_batch cfg batch s).text = s.text ∧
      (open_batch cfg batch s).text_length = s.text_length := by
  by_cases h : cfg.show_hit_count = 0 <;>
    simp [open_batch, batch_opening, h, State.log, State.emit, written_cons, written_nil,
      Event.bytes]

theorem clean_batch_opening (cfg : Config) (n : Int) : clean (batch_opening cfg n) := by
  by_cases h : cfg.show_hit_count = 0 <;>
    simp [batch_opening, h, clean, Event.failed]

theorem die_trace (s : State) (h : s.out_file = .opened) :
    (die s).state.trace = s.trace ++
      [.fclose, .eb_finalize_book, .eb_finalize_library, .eb_finalize_hookset] := by
  unfold die
  rw [h]
  simp [State.log]

theorem die_defined (s : State) (h : s.out_file ≠ .closed) : (die s).undefined = false := by
  unfold die
  cases hs : s.out_file <;> simp_all

/-- A run over one batch of hits followed by a report of zero hits. -/
theorem batch_run_spec (cfg : Config) (lib : Collaborators) (hookset : EB_Hookset)
    (batch : List EB_Hit) (rest : List (Option (List EB_Hit))) (s : State)
    (hn : 1 ≤ batch.length) (hrest : reports_zero rest) :
    ∃ idx es tail,
      (while_hits cfg lib hookset (some batch :: rest) s).state.trace =
        s.trace ++ batch_opening cfg batch.length ++ es ++ tail ∧
      (while_hits cfg lib hookset (some batch :: rest) s).state.out =
        written (batch_opening cfg batch.length) ++ written es ∧
      rendered (entry_banner_shown cfg (min (batch.length : Int) cfg.max_hits_to_output))
        idx es ∧
      (∀ e ∈ tail, e.ending = true) ∧
      (((while_hits cfg lib hookset (some batch :: rest) s).exit_code = 0 ∧ clean es) ∨
        ((while_hits cfg lib hookset (some batch :: rest) s).exit_code = 1 ∧ aborted es)) ∧
      (cfg.hit_to_output ≥ 0 →
        idx = if 0 < min (batch.length : Int) cfg.max_hits_to_output
          then [cfg.hit_to_output] else []) ∧
      (cfg.hit_to_output < 0 →
        ∃ m, idx = indices_from 0 m ∧
          m ≤ (min (batch.length : Int) cfg.max_hits_to_output).toNat ∧
          ((while_hits cfg lib hookset (some batch :: rest) s).exit_code = 0 →
            m = (min (batch.length : Int) cfg.max_hits_to_output).toNat) ∧
          ((while_hits cfg lib hookset (some batch :: rest) s).exit_code = 1 → 0 < m)) := by
  cases batch with
  | nil => simp at hn
  | cons h t =>
    rw [while_hits_cons]
    obtain ⟨o1, o2, o3, o4, _, _⟩ := open_batch_spec cfg (h :: t) s
    obtain ⟨idx, es, hl, hr, hsel, hnosel⟩ := for_hits_spec cfg lib hookset
      (min ((h :: t).length : Int) cfg.max_hits_to_output)
      (min ((h :: t).length : Int) cfg.max_hits_to_output).toNat 0
      (open_batch cfg (h :: t) s)
    obtain ⟨l1, l2, _, l4, l5, l6⟩ := hl
    have hfuel : 0 < (min ((h :: t).length : Int) cfg.max_hits_to_output).toNat ↔
        0 < min ((h :: t).length : Int) cfg.max_hits_to_output := by omega
    cases hf : for_hits cfg lib hookset
      (min ((h :: t).length : Int) cfg.max_hits_to_output)
      (min ((h :: t).length : Int) cfg.max_hits_to_output).toNat 0
      (open_batch cfg (h :: t) s) with
    | die s1 =>
      rw [hf] at l1 l2 l4 l5 l6 hnosel
      simp only [Flow.state] at l1 l2 l4
      have hof : s1.out_file = .opened := l4.trans o4
      refine ⟨idx, es, [.fclose, .eb_finalize_book, .eb_finalize_library,
        .eb_finalize_hookset], ?_, ?_, hr, ?_,
        Or.inr ⟨(die_state s1).2.1, l6 rfl⟩, ?_, ?_⟩
      · simp only []
        rw [die_trace s1 hof, l1, o1]
      · simp only []
        rw [(die_state s1).1, l2, o2]
      · intro e he
        simp at he
        rcases he with rfl | rfl | rfl | rfl <;> rfl
      · intro hk
        rw [hsel hk]
        simp [hfuel]
      · intro hk
        obtain ⟨m, hm1, hm2, hm3, hm4⟩ := hnosel hk (by omega)
        refine ⟨m, hm1, by omega, ?_, fun _ => hm4 rfl⟩
        intro h0
        have := (die_state s1).2.1
        simp only [] at h0
        omega
    | ok s1 =>
      rw [hf] at l1 l2 l4 l5 l6 hnosel
      simp only [Flow.state] at l1 l2 l4
      have hw := while_hits_zero cfg lib hookset rest hrest s1.fclose
      refine ⟨idx, es, [.fclose, .eb_hit_list true 0, .eb_finalize_book,
        .eb_finalize_library, .eb_finalize_hookset], ?_, ?_, hr, ?_,
        Or.inl ⟨?_, l5 rfl⟩, ?_, ?_⟩
      · simp only []
        rw [hw, (cleanup_state _).2.2]
        simp [State.log, State.fclose, l1, o1]
      · simp only []
        rw [hw, (cleanup_state _).1]
        simp [State.log, State.fclose, l2, o2]
      · intro e he
        simp at he
        rcases he with rfl | rfl | rfl | rfl | rfl <;> rfl
      · simp only []
        rw [hw, (cleanup_state _).2.1]
      · intro hk
        rw [hsel hk]
        simp [hfuel]
      · intro hk
        obtain ⟨m, hm1, hm2, hm3, hm4⟩ := hnosel hk (by omega)
        refine ⟨m, hm1, by omega, fun _ => by have := hm3 rfl; omega, ?_⟩
        intro h1
        simp only [] at h1
        rw [hw, (cleanup_state _).2.1] at h1
        omega

/-! ## Reading the segments of a batch -/

theorem iterations_append (t u : List Event) :
    iterations (t ++ u) = iterations t ++ iterations u := by
  simp [iterations]

theorem entries_append (t u : List Event) : entries (t ++ u) = entries t ++ entries u := by
  simp [entries]

theorem iterations_block (i : Int) (blk : List Event) (h : ∀ e ∈ blk, e.in_block i = true) :
    iterations blk = [] := by
  unfold iterations
  rw [List.filterMap_eq_nil_iff]
  intro e he
  have := h e he
  cases e <;> first | rfl | exact absurd this (by simp [Event.in_block])

theorem entries_block (i : Int) (blk : List Event) (h : ∀ e ∈ blk, e.in_block i = true) :
    entries blk = [] := by
  unfold entries
  rw [List.filterMap_eq_nil_iff]
  intro e he
  have := h e he
  cases e <;> first | rfl | exact absurd this (by simp [Event.in_block])

theorem iterations_ending (tail : List Event) (h : ∀ e ∈ tail, e.ending = true) :
    iterations tail = [] ∧ entries tail = [] ∧ ∀ e ∈ tail, ∀ j, e.in_block j = false := by
  unfold iterations entries
  rw [List.filterMap_eq_nil_iff, List.filterMap_eq_nil_iff]
  refine ⟨?_, ?_, ?_⟩ <;> intro e he <;> have := h e he <;>
    cases e <;> first | rfl | (intro j; rfl) | exact absurd this (by simp [Event.ending, Event.closing])

theorem batch_opening_silent (cfg : Config) (n : Int) :
    iterations (batch_opening cfg n) = [] ∧ entries (batch_opening cfg n) = [] ∧
      ∀ e ∈ batch_opening cfg n, ∀ j, e.in_block j = false := by
  by_cases h : cfg.show_hit_count = 0 <;>
    simp [batch_opening, h, iterations, entries, Event.in_block]

theorem in_block_unique (e : Event) (i j : Int) (hi : e.in_block i = true)
    (hj : e.in_block j = true) : j = i := by
  cases e <;> simp_all [Event.in_block]

theorem rendered_iterations (b : Bool) (idx : List Int) (es : List Event)
    (h : rendered b idx es) : iterations es = idx := by
  induction idx generalizing es with
  | nil => simp only [rendered] at h; subst h; rfl
  | cons i is ih =>
    obtain ⟨blk, rest, rfl, hin, hr⟩ := h
    rw [iterations_append, iterations_append, iterations_block i blk hin, ih rest hr]
    cases b <;> simp [hit_opening, iterations]

theorem rendered_entries (b : Bool) (idx : List Int) (es : List Event)
    (h : rendered b idx es) : entries es = if b then idx else [] := by
  induction idx generalizing es with
  | nil => simp only [rendered] at h; subst h; simp [entries]
  | cons i is ih =>
    obtain ⟨blk, rest, rfl, hin, hr⟩ := h
    rw [entries_append, entries_append, entries_block i blk hin, ih rest hr]
    cases b <;> simp [hit_opening, entries]

theorem rendered_in_block (b : Bool) (idx : List Int) (es : List Event)
    (h : rendered b idx es) : ∀ e ∈ es, ∀ j, e.in_block j = true → j ∈ idx := by
  induction idx generalizing es with
  | nil => simp only [rendered] at h; subst h; simp
  | cons i is ih =>
    obtain ⟨blk, rest, rfl, hin, hr⟩ := h
    intro e he j hj
    rcases List.mem_append.1 he with h1 | h1
    · rcases List.mem_append.1 h1 with h2 | h2
      · cases b <;> simp [hit_opening] at h2
        · subst h2; simp [Event.in_block] at hj
        · rcases h2 with rfl | rfl <;> simp [Event.in_block] at hj
      · have := in_block_unique e i j (hin e h2) hj
        simp [this]
    · exact List.mem_cons_of_mem _ (ih rest hr e h1 j hj)

theorem mem_indices_from (i : Int) (m : Nat) (j : Int) :
    j ∈ indices_from i m ↔ i ≤ j ∧ j < i + m := by
  induction m generalizing i with
  | zero => simp [indices_from]
  | succ m ih =>
    simp only [indices_from, List.mem_cons, ih]
    omega

theorem indices_from_eq_range (m : Nat) (i : Int) :
    indices_from i m = (List.range m).map (fun k : Nat => i + k) := by
  induction m generalizing i with
  | zero => rfl
  | succ m ih =>
    rw [indices_from, ih, List.range_succ_eq_map]
    simp [Function.comp_def]
    intro a _
    omega

/-! ## A hit whose calls all succeed -/

theorem heading_block_ok (cfg : Config) (lib : Collaborators) (hookset : EB_Hookset)
    (i : Int) (s : State) (hb hc : Bytes) (hp : cfg.print_heading ≠ 0)
    (hseek : lib.eb_seek_text (s.hits i).heading = true)
    (hread : lib.eb_read_heading hookset (s.hits i).heading = some hb)
    (hconv : lib.convert_encoding hb hb.length = some hc) :
    ∃ s', heading_block cfg lib hookset i s = .ok s' ∧
      s'.out = s.out ++ (c_str hc ++ ascii "\n") ∧ s'.hits = s.hits ∧ s'.text = s.text ∧
      s'.text_length = s.text_length ∧ s'.out_file = s.out_file ∧
      s'.trace = s.trace ++ [.eb_seek_text i .heading true, .eb_read i .heading true,
        .convert_encoding i .heading true, .replace_gaiji_with_utf8 i .heading,
        .write i .heading (c_str hc ++ ascii "\n")] := by
  refine ⟨_, by simp [heading_block, hp, hseek, hread, hconv, State.log]; rfl, ?_⟩
  simp [State.emit]

theorem text_block_ok (cfg : Config) (lib : Collaborators) (hookset : EB_Hookset)
    (i : Int) (s : State) (tb tc : Bytes) (hp : cfg.print_text ≠ 0)
    (hseek : lib.eb_seek_text (s.hits i).text = true)
    (hread : lib.eb_read_text hookset (s.hits i).text = some tb)
    (hconv : lib.convert_encoding tb tb.length = some tc) :
    ∃ s', text_block cfg lib hookset i s = .ok s' ∧
      s'.out = s.out ++ c_str (lib.replace_gaiji_with_utf8 tc) ∧ s'.hits = s.hits ∧
      s'.text = tb ∧ s'.text_length = tb.length ∧ s'.out_file = s.out_file ∧
      s'.trace = s.trace ++ [.eb_seek_text i .text true, .eb_read i .text true,
        .convert_encoding i .text true, .replace_gaiji_with_utf8 i .text,
        .write i .text (c_str (lib.replace_gaiji_with_utf8 tc))] := by
  refine ⟨_, by simp [text_block, hp, hseek, hread, hconv, State.log]; rfl, ?_⟩
  simp [State.emit]

theorem for_hits_selected (cfg : Config) (lib : Collaborators) (hookset : EB_Hookset)
    (hit_count : Int) (fuel : Nat) (s : State) (hsel : cfg.hit_to_output ≥ 0)
    (hc : 0 < hit_count) :
    for_hits cfg lib hookset hit_count (fuel + 1) 0 s =
      hit_body cfg lib hookset hit_count cfg.hit_to_output s := by
  simp only [for_hits, hc, hsel, if_true]
  cases hit_body cfg lib hookset hit_count cfg.hit_to_output s <;> rfl

theorem store_hits_get (hits : Int → EB_Hit) (batch : List EB_Hit) (k : Nat) (hit : EB_Hit)
    (hk : batch.get? k = some hit) : store_hits hits batch (k : Int) = hit := by
  simp [store_hits] at hk ⊢
  simp [hk]

/-! ## Runs -/

theorem rendered_no_fopen (b : Bool) (idx : List Int) (es : List Event)
    (h : rendered b idx es) : Event.fopen_w ∉ es := by
  induction idx generalizing es with
  | nil => simp only [rendered] at h; subst h; simp
  | cons i is ih =>
    obtain ⟨blk, rest, rfl, hin, hr⟩ := h
    intro hmem
    rcases List.mem_append.1 hmem with h1 | h1
    · rcases List.mem_append.1 h1 with h2 | h2
      · cases b <;> simp [hit_opening] at h2
      · have := hin _ h2
        simp [Event.in_block] at this
    · exact ih rest hr h1

/-! ## The content of a batch -/

theorem heading_block_content (cfg : Config) (lib : Collaborators) (hookset : EB_Hookset)
    (i : Int) (s : State) (hl : Bytes)
    (h : heading_line cfg lib hookset (s.hits i) = some hl) :
    ∃ s', heading_block cfg lib hookset i s = .ok s' ∧ s'.out = s.out ++ hl ∧
      s'.hits = s.hits ∧ s'.text = s.text ∧ s'.text_length = s.text_length ∧
      s'.out_file = s.out_file := by
  by_cases hp : cfg.print_heading = 0
  · simp [heading_line, hp] at h
    subst h
    exact ⟨s, by simp [heading_block, hp], by simp, rfl, rfl, rfl, rfl⟩
  · cases hs : lib.eb_seek_text (s.hits i).heading with
    | false => simp [heading_line, hp, hs] at h
    | true =>
      cases hr : lib.eb_read_heading hookset (s.hits i).heading with
      | none => simp [heading_line, hp, hs, hr] at h
      | some hb =>
        cases hv : lib.convert_encoding hb hb.length with
        | none => simp [heading_line, hp, hs, hr, hv] at h
        | some hc =>
          simp [heading_line, hp, hs, hr, hv] at h
          subst h
          obtain ⟨s', h1, h2, h3, h4, h5, h6, _⟩ :=
            heading_block_ok cfg lib hookset i s hb hc hp hs hr hv
          exact ⟨s', h1, h2, h3, h4, h5, h6⟩

theorem text_block_content (cfg : Config) (lib : Collaborators) (hookset : EB_Hookset)
    (i : Int) (s : State) (b : Bytes)
    (h : body_bytes cfg lib hookset s.text s.text_length (s.hits i) = some b) :
    ∃ s', text_block cfg lib hookset i s = .ok s' ∧ s'.out = s.out ++ b ∧
      s'.hits = s.hits ∧ s'.out_file = s.out_file ∧
      (cfg.print_text = 0 → s'.text = s.text ∧ s'.text_length = s.text_length) := by
  by_cases hp : cfg.print_text = 0
  · cases hv : lib.convert_encoding s.text s.text_length with
    | none => simp [body_bytes, hp, hv] at h
    | some tc =>
      simp [body_bytes, hp, hv] at h
      subst h
      refine ⟨_, by simp [text_block, hp, hv, State.log]; rfl, ?_⟩
      simp [State.emit]
  · cases hs : lib.eb_seek_text (s.hits i).text with
    | false => simp [body_bytes, hp, hs] at h
    | true =>
      cases hr : lib.eb_read_text hookset (s.hits i).text with
      | none => simp [body_bytes, hp, hs, hr] at h
      | some tb =>
        cases hv : lib.convert_encoding tb tb.length with
        | none => simp [body_bytes, hp, hs, hr, hv] at h
        | some tc =>
          simp [body_bytes, hp, hs, hr, hv] at h
          subst h
          obtain ⟨s', h1, h2, h3, _, _, h6, _⟩ :=
            text_block_ok cfg lib hookset i s tb tc hp hs hr hv
          exact ⟨s', h1, h2, h3, h6, fun h0 => absurd h0 hp⟩

theorem body_bytes_congr (cfg : Config) (lib : Collaborators) (hookset : EB_Hookset)
    (t1 t2 : Bytes) (l1 l2 : Int) (hit : EB_Hit)
    (h : cfg.print_text = 0 → t1 = t2 ∧ l1 = l2) :
    body_bytes cfg lib hookset t1 l1 hit = body_bytes cfg lib hookset t2 l2 hit := by
  by_cases hp : cfg.print_text = 0
  · obtain ⟨rfl, rfl⟩ := h hp
    rfl
  · simp [body_bytes, hp]

theorem hits_content_congr (cfg : Config) (lib : Collaborators) (hookset : EB_Hookset)
    (t1 t2 : Bytes) (l1 l2 : Int) (banner : Bool) (i : Int) (l : List EB_Hit)
    (h : cfg.print_text = 0 → t1 = t2 ∧ l1 = l2) :
    hits_content cfg lib hookset t1 l1 banner i l =
      hits_content cfg lib hookset t2 l2 banner i l := by
  induction l generalizing i with
  | nil => rfl
  | cons hit rest ih =>
    simp only [hits_content]
    rw [ih, body_bytes_congr cfg lib hookset t1 t2 l1 l2 hit h]

theorem hit_body_content (cfg : Config) (lib : Collaborators) (hookset : EB_Hookset)
    (hit_count i : Int) (s : State) (hl b : Bytes)
    (hh : heading_line cfg lib hookset (s.hits i) = some hl)
    (hb : body_bytes cfg lib hookset s.text s.text_length (s.hits i) = some b) :
    ∃ s', hit_body cfg lib hookset hit_count i s = .ok s' ∧
      s'.out = s.out ++ ((if entry_banner_shown cfg hit_count then entry_banner i else []) ++
        hl ++ b) ∧
      s'.hits = s.hits ∧ s'.out_file = s.out_file ∧
      (cfg.print_text = 0 → s'.text = s.text ∧ s'.text_length = s.text_length) := by
  have h0 : ∃ s0, s0 = (if cfg.print_hit_number ≠ 0 ∧ hit_count > 1 ∧ cfg.hit_to_output = -1 then
        (s.log (.hit i)).emit (.fprintf_entry i) (entry_banner i) else s.log (.hit i)) ∧
      s0.out = s.out ++ (if entry_banner_shown cfg hit_count then entry_banner i else []) ∧
      s0.hits = s.hits ∧ s0.text = s.text ∧ s0.text_length = s.text_length ∧
      s0.out_file = s.out_file := by
    refine ⟨_, rfl, ?_⟩
    by_cases hban : cfg.print_hit_number ≠ 0 ∧ hit_count > 1 ∧ cfg.hit_to_output = -1
    · simp [hban, entry_banner_shown, State.log, State.emit]
    · simp [hban, entry_banner_shown, State.log, State.emit]
  obtain ⟨s0, hs0, o0, hi0, t0, tl0, f0⟩ := h0
  have hbody : hit_body cfg lib hookset hit_count i s =
      match heading_block cfg lib hookset i s0 with
      | .die s => .die s
      | .ok s => text_block cfg lib hookset i s := by
    rw [hs0]; rfl
  obtain ⟨s1, e1, o1, hi1, t1, tl1, f1⟩ :=
    heading_block_content cfg lib hookset i s0 hl (by rw [hi0]; exact hh)
  obtain ⟨s2, e2, o2, hi2, f2, t2⟩ :=
    text_block_content cfg lib hookset i s1 b (by rw [hi1, hi0, t1, tl1, t0, tl0]; exact hb)
  refine ⟨s2, by rw [hbody, e1]; exact e2, ?_, by rw [hi2, hi1, hi0], by rw [f2, f1, f0], ?_⟩
  · rw [o2, o1, o0]
    simp
  · intro hp
    obtain ⟨a, c⟩ := t2 hp
    exact ⟨by rw [a, t1, t0], by rw [c, tl1, tl0]⟩

theorem for_hits_content (cfg : Config) (lib : Collaborators) (hookset : EB_Hookset)
    (hit_count : Int) (hsel : cfg.hit_to_output < 0) (l : List EB_Hit) (i : Int) (s : State)
    (bytes : Bytes) (hcount : l ≠ [] → hit_count = i + l.length)
    (hhits : ∀ k : Nat, k < l.length → l.get? k = some (s.hits (i + k)))
    (hc : hits_content cfg lib hookset s.text s.text_length
      (entry_banner_shown cfg hit_count) i l = some bytes) :
    ∃ s', for_hits cfg lib hookset hit_count l.length i s = .ok s' ∧
      s'.out = s.out ++ bytes ∧ s'.out_file = s.out_file := by
  induction l generalizing i s bytes with
  | nil =>
    simp [hits_content] at hc
    subst hc
    exact ⟨s, rfl, by simp, rfl⟩
  | cons hit rest ih =>
    have hhit : s.hits i = hit := by
      have := hhits 0 (by simp)
      simp at this
      exact this.symm
    simp only [hits_content] at hc
    cases hh : heading_line cfg lib hookset hit with
    | none => simp [hh] at hc
    | some hl =>
      cases hb : body_bytes cfg lib hookset s.text s.text_length hit with
      | none => simp [hh, hb] at hc
      | some b =>
        cases hr : hits_content cfg lib hookset s.text s.text_length
            (entry_banner_shown cfg hit_count) (i + 1) rest with
        | none => simp [hh, hb, hr] at hc
        | some r =>
          simp [hh, hb, hr] at hc
          obtain ⟨s1, e1, o1, hi1, f1, t1⟩ := hit_body_content cfg lib hookset hit_count i s
            hl b (by rw [hhit]; exact hh) (by rw [hhit]; exact hb)
          have hcount' := hcount (by simp)
          have hlt : i < hit_count := by simp at hcount'; omega
          have hnsel : ¬ cfg.hit_to_output ≥ 0 := by omega
          obtain ⟨s2, e2, o2, f2⟩ := ih (i + 1) s1 r
            (by intro _; simp at hcount' ⊢; omega)
            (by
              intro k hk
              have := hhits (k + 1) (by simp; omega)
              simp at this
              rw [hi1]
              have hcast : i + 1 + (k : Int) = i + ((k + 1 : Nat) : Int) := by push_cast; ring
              rw [hcast]
              simpa using this)
            (by
              rw [hits_content_congr cfg lib hookset s1.text s.text s1.text_length
                s.text_length _ _ _ t1]
              exact hr)
          refine ⟨s2, ?_, ?_, by rw [f2, f1]⟩
          · simp only [List.length_cons, for_hits, hlt, hnsel, if_true, if_false, e1]
            exact e2
          · rw [o2, o1, ← hc]
            simp

theorem take_get (batch : List EB_Hit) (m k : Nat) (hk : k < (batch.take m).length)
    (hits : Int → EB_Hit) :
    (batch.take m).get? k = some (store_hits hits batch ((0 : Int) + k)) := by
  have hk' : k < m ∧ k < batch.length := by
    simp at hk
    exact hk
  simp [store_hits, List.getElem?_take, hk'.1, hk'.2]

theorem batch_content (cfg : Config) (lib : Collaborators) (hookset : EB_Hookset)
    (batch : List EB_Hit) (rest : List (Option (List EB_Hit))) (s : State) (bytes : Bytes)
    (hn : 1 ≤ batch.length) (hsel : cfg.hit_to_output = -1) (hrest : reports_zero rest)
    (hc : hits_content cfg lib hookset s.text s.text_length
      (decide (cfg.print_hit_number ≠ 0 ∧
        1 < min (batch.length : Int) cfg.max_hits_to_output)) 0
      (batch.take (min (batch.length : Int) cfg.max_hits_to_output).toNat) = some bytes) :
    (while_hits cfg lib hookset (some batch :: rest) s).exit_code = 0 ∧
      (while_hits cfg lib hookset (some batch :: rest) s).state.out =
        (if cfg.show_hit_count ≠ 0 then hits_banner batch.length else []) ++ bytes := by
  cases batch with
  | nil => simp at hn
  | cons h t =>
    rw [while_hits_cons]
    obtain ⟨_, o2, o3, _, o5, o6⟩ := open_batch_spec cfg (h :: t) s
    have hban : entry_banner_shown cfg (min ((h :: t).length : Int) cfg.max_hits_to_output) =
        decide (cfg.print_hit_number ≠ 0 ∧
          1 < min ((h :: t).length : Int) cfg.max_hits_to_output) := by
      simp [entry_banner_shown, hsel]
    have hlen : ((h :: t).take (min ((h :: t).length : Int) cfg.max_hits_to_output).toNat).length
        = (min ((h :: t).length : Int) cfg.max_hits_to_output).toNat := by
      rw [List.length_take]
      omega
    obtain ⟨s1, e1, out1, _⟩ := for_hits_content cfg lib hookset
      (min ((h :: t).length : Int) cfg.max_hits_to_output) (by omega)
      ((h :: t).take (min ((h :: t).length : Int) cfg.max_hits_to_output).toNat) 0
      (open_batch cfg (h :: t) s) bytes
      (by
        intro hne
        have : 0 < ((h :: t).take
            (min ((h :: t).length : Int) cfg.max_hits_to_output).toNat).length :=
          List.length_pos.2 hne
        rw [hlen] at this ⊢
        omega)
      (by
        intro k hk
        rw [o3]
        exact take_get _ _ _ hk _)
      (by rw [o5, o6, hban]; exact hc)
    rw [hlen] at e1
    rw [e1]
    simp only []
    rw [while_hits_zero cfg lib hookset rest hrest]
    refine ⟨(cleanup_state _).2.1, ?_⟩
    rw [(cleanup_state _).1]
    simp only [State.log, State.fclose]
    rw [out1, o2]
    by_cases hs : cfg.show_hit_count = 0 <;>
      simp [batch_opening, hs, written_cons, written_nil, Event.bytes]

theorem render_failure_failed (e : Event) (h : e.render_failure = true) :
    e.failed = true ∧ e ≠ .eb_hit_list false 0 ∧ e ≠ .fclose ∧ e ∉ finalizers := by
  cases e <;> simp_all [Event.render_failure, Event.failed, finalizers]

theorem outcome_of_render_failure (new : List Event) (e : Event) (he : e ∈ new)
    (hr : e.render_failure = true) (pre : List Event) (e' : Event) (closing : List Event)
    (hnew : new = pre ++ e' :: closing) (hpre : clean pre)
    (hcl : closing = finalizers ∨ closing = .fclose :: finalizers) : e' = e := by
  obtain ⟨hf, _, h2, h3⟩ := render_failure_failed e hr
  subst hnew
  rcases List.mem_append.1 he with h | h
  · have := hpre e h
    rw [hf] at this
    cases this
  · rcases List.mem_cons.1 h with h | h
    · exact h.symm
    · rcases hcl with rfl | rfl
      · exact absurd h h3
      · rcases List.mem_cons.1 h with h | h
        · exact absurd h h2
        · exact absurd h h3

theorem hits_content_no_text (cfg : Config) (lib : Collaborators) (hookset : EB_Hookset)
    (text : Bytes) (tl : Int) (banner : Bool) (i : Int) (l : List EB_Hit) (tc : Bytes)
    (hpt : cfg.print_text = 0) (hc : lib.convert_encoding text tl = some tc)
    (he : c_str (lib.replace_gaiji_with_utf8 tc) = []) :
    hits_content cfg lib hookset text tl banner i l =
      headings_content cfg lib hookset banner i l := by
  induction l generalizing i with
  | nil => rfl
  | cons hit rest ih =>
    have hb : body_bytes cfg lib hookset text tl hit = some [] := by
      simp [body_bytes, hpt, hc, he]
    simp only [hits_content, headings_content, ih, hb]
    cases heading_line cfg lib hookset hit <;>
      cases headings_content cfg lib hookset banner (i + 1) rest <;> simp

theorem heading_block_no_body (cfg : Config) (lib : Collaborators) (hookset : EB_Hookset)
    (i : Int) (s : State) (h : ∀ e ∈ s.trace, e.no_body = true) :
    (∀ e ∈ (heading_block cfg lib hookset i s).state.trace, e.no_body = true) ∧
      (heading_block cfg lib hookset i s).state.text = s.text ∧
      (heading_block cfg lib hookset i s).state.text_length = s.text_length := by
  unfold heading_block
  by_cases hp : cfg.print_heading = 0
  · simpa [hp, Flow.state] using h
  · cases hs : lib.eb_seek_text (s.hits i).heading with
    | false =>
      simpa [hp, hs, Flow.state, State.log, Event.no_body, or_imp, forall_and] using h
    | true =>
      cases hr : lib.eb_read_heading hookset (s.hits i).heading with
      | none =>
        simpa [hp, hs, hr, Flow.state, State.log, Event.no_body, or_imp, forall_and] using h
      | some hb =>
        cases hv : lib.convert_encoding hb hb.length with
        | none =>
          simpa [hp, hs, hr, hv, Flow.state, State.log, Event.no_body, or_imp, forall_and]
            using h
        | some hc =>
          simpa [hp, hs, hr, hv, Flow.state, State.log, State.emit, Event.no_body, or_imp,
            forall_and] using h

theorem text_block_no_body (cfg : Config) (lib : Collaborators) (hookset : EB_Hookset)
    (i : Int) (s : State) (hpt : cfg.print_text = 0)
    (hz : ∀ c, lib.convert_encoding s.text s.text_length = some c →
      c_str (lib.replace_gaiji_with_utf8 c) = [])
    (h : ∀ e ∈ s.trace, e.no_body = true) :
    (∀ e ∈ (text_block cfg lib hookset i s).state.trace, e.no_body = true) ∧
      (text_block cfg lib hookset i s).state.text = s.text ∧
      (text_block cfg lib hookset i s).state.text_length = s.text_length := by
  unfold text_block
  cases hv : lib.convert_encoding s.text s.text_length with
  | none =>
    simpa [hpt, hv, Flow.state, State.log, Event.no_body, or_imp, forall_and] using h
  | some c =>
    have := hz c hv
    simpa [hpt, hv, this, Flow.state, State.log, State.emit, Event.no_body, or_imp,
      forall_and] using h

theorem hit_body_no_body (cfg : Config) (lib : Collaborators) (hookset : EB_Hookset)
    (hit_count i : Int) (s : State) (hpt : cfg.print_text = 0)
    (hz : ∀ c, lib.convert_encoding s.text s.text_length = some c →
      c_str (lib.replace_gaiji_with_utf8 c) = [])
    (h : ∀ e ∈ s.trace, e.no_body = true) :
    (∀ e ∈ (hit_body cfg lib hookset hit_count i s).state.trace, e.no_body = true) ∧
      (hit_body cfg lib hookset hit_count i s).state.text = s.text ∧
      (hit_body cfg lib hookset hit_count i s).state.text_length = s.text_length := by
  have h0 : ∃ s0, s0 = (if cfg.print_hit_number ≠ 0 ∧ hit_count > 1 ∧ cfg.hit_to_output = -1 then
        (s.log (.hit i)).emit (.fprintf_entry i) (entry_banner i) else s.log (.hit i)) ∧
      (∀ e ∈ s0.trace, e.no_body = true) ∧ s0.text = s.text ∧
      s0.text_length = s.text_length := by
    refine ⟨_, rfl, ?_⟩
    by_cases hban : cfg.print_hit_number ≠ 0 ∧ hit_count > 1 ∧ cfg.hit_to_output = -1
    · simpa [hban, State.log, State.emit, Event.no_body, or_imp, forall_and] using h
    · simpa [hban, State.log, State.emit, Event.no_body, or_imp, forall_and] using h
  obtain ⟨s0, hs0, n0, t0, l0⟩ := h0
  have hbody : hit_body cfg lib hookset hit_count i s =
      match heading_block cfg lib hookset i s0 with
      | .die s => .die s
      | .ok s => text_block cfg lib hookset i s := by
    rw [hs0]; rfl
  obtain ⟨n1, t1, l1⟩ := heading_block_no_body cfg lib hookset i s0 n0
  rw [hbody]
  cases hh : heading_block cfg lib hookset i s0 with
  | die s1 =>
    rw [hh] at n1 t1 l1
    simp only [Flow.state] at n1 t1 l1 ⊢
    exact ⟨n1, by rw [t1, t0], by rw [l1, l0]⟩
  | ok s1 =>
    rw [hh] at n1 t1 l1
    simp only [Flow.state] at n1 t1 l1
    obtain ⟨n2, t2, l2⟩ := text_block_no_body cfg lib hookset i s1 hpt
      (by rw [t1, t0, l1, l0]; exact hz) n1
    exact ⟨n2, by rw [t2, t1, t0], by rw [l2, l1, l0]⟩

theorem for_hits_no_body (cfg : Config) (lib : Collaborators) (hookset : EB_Hookset)
    (hit_count : Int) (fuel : Nat) (i : Int) (s : State) (hpt : cfg.print_text = 0)
    (hz : ∀ c, lib.convert_encoding s.text s.text_length = some c →
      c_str (lib.replace_gaiji_with_utf8 c) = [])
    (h : ∀ e ∈ s.trace, e.no_body = true) :
    (∀ e ∈ (for_hits cfg lib hookset hit_count fuel i s).state.trace, e.no_body = true) ∧
      (for_hits cfg lib hookset hit_count fuel i s).state.text = s.text ∧
      (for_hits cfg lib hookset hit_count fuel i s).state.text_length = s.text_length := by
  induction fuel generalizing i s with
  | zero => exact ⟨h, rfl, rfl⟩
  | succ fuel ih =>
    by_cases hlt : i < hit_count
    · by_cases hsel : cfg.hit_to_output ≥ 0
      · have hf : for_hits cfg lib hookset hit_count (fuel + 1) i s =
            hit_body cfg lib hookset hit_count cfg.hit_to_output s := by
          simp only [for_hits, hlt, hsel, if_true]
          cases hit_body cfg lib hookset hit_count cfg.hit_to_output s <;> rfl
        rw [hf]
        exact hit_body_no_body cfg lib hookset hit_count _ s hpt hz h
      · obtain ⟨n1, t1, l1⟩ := hit_body_no_body cfg lib hookset hit_count i s hpt hz h
        cases hb : hit_body cfg lib hookset hit_count i s with
        | die s1 =>
          have hf : for_hits cfg lib hookset hit_count (fuel + 1) i s = .die s1 := by
            simp only [for_hits, hlt, hsel, if_true, if_false, hb]
          rw [hf]
          rw [hb] at n1 t1 l1
          exact ⟨n1, t1, l1⟩
        | ok s1 =>
          have hf : for_hits cfg lib hookset hit_count (fuel + 1) i s =
              for_hits cfg lib hookset hit_count fuel (i + 1) s1 := by
            simp only [for_hits, hlt, hsel, if_true, if_false, hb]
          rw [hf]
          rw [hb] at n1 t1 l1
          simp only [Flow.state] at n1 t1 l1
          obtain ⟨n2, t2, l2⟩ := ih (i + 1) s1 (by rw [t1, l1]; exact hz) n1
          exact ⟨n2, by rw [t2, t1], by rw [l2, l1]⟩
    · have hf : for_hits cfg lib hookset hit_count (fuel + 1) i s = .ok s := by
        simp only [for_hits, hlt, if_false]
      rw [hf]
      exact ⟨h, rfl, rfl⟩

theorem while_hits_no_body (cfg : Config) (lib : Collaborators) (hookset : EB_Hookset)
    (batches : List (Option (List EB_Hit))) (s : State) (hpt : cfg.print_text = 0)
    (hz : ∀ c, lib.convert_encoding s.text s.text_length = some c →
      c_str (lib.replace_gaiji_with_utf8 c) = [])
    (h : ∀ e ∈ s.trace, e.no_body = true) :
    ∀ e ∈ (while_hits cfg lib hookset batches s).state.trace, e.no_body = true := by
  induction batches generalizing s with
  | nil => simpa [while_hits, cleanup, State.log, Event.no_body, or_imp, forall_and] using h
  | cons b rest ih =>
    cases b with
    | none =>
      cases hs : s.out_file <;>
        simpa [while_hits, die, hs, State.log, Event.no_body, or_imp, forall_and] using h
    | some batch =>
      cases batch with
      | nil =>
        simpa [while_hits, cleanup, State.log, Event.no_body, or_imp, forall_and] using h
      | cons hd t =>
        rw [while_hits_cons]
        obtain ⟨o1, _, _, o4, o5, o6⟩ := open_batch_spec cfg (hd :: t) s
        have hno : ∀ e ∈ (open_batch cfg (hd :: t) s).trace, e.no_body = true := by
          rw [o1]
          by_cases hsh : cfg.show_hit_count = 0 <;>
            simpa [batch_opening, hsh, Event.no_body, or_imp, forall_and] using h
        obtain ⟨n1, t1, l1⟩ := for_hits_no_body cfg lib hookset
          (min ((hd :: t).length : Int) cfg.max_hits_to_output)
          (min ((hd :: t).length : Int) cfg.max_hits_to_output).toNat 0
          (open_batch cfg (hd :: t) s) hpt (by rw [o5, o6]; exact hz) hno
        obtain ⟨_, es, hl, _⟩ := for_hits_spec cfg lib hookset
          (min ((hd :: t).length : Int) cfg.max_hits_to_output)
          (min ((hd :: t).length : Int) cfg.max_hits_to_output).toNat 0
          (open_batch cfg (hd :: t) s)
        have l4 := hl.2.2.2.1
        cases hf : for_hits cfg lib hookset
          (min ((hd :: t).length : Int) cfg.max_hits_to_output)
          (min ((hd :: t).length : Int) cfg.max_hits_to_output).toNat 0
          (open_batch cfg (hd :: t) s) with
        | die s1 =>
          rw [hf] at n1 l4
          simp only [Flow.state] at n1 l4
          simp only []
          rw [die_trace s1 (l4.trans o4)]
          simpa [Event.no_body, or_imp, forall_and] using n1
        | ok s1 =>
          rw [hf] at n1 t1 l1
          simp only [Flow.state] at n1 t1 l1
          simp only []
          apply ih
          · simp only [State.fclose]
            rw [t1, l1, o5, o6]
            exact hz
          · simpa [State.fclose, Event.no_body, or_imp, forall_and] using n1

theorem written_ending (tail : List Event) (h : ∀ e ∈ tail, e.ending = true) :
    written tail = [] := by
  induction tail with
  | nil => rfl
  | cons e t ih =>
    have he := h e (by simp)
    rw [written_cons, ih (fun x hx => h x (by simp [hx]))]
    cases e <;> first | rfl | exact absurd he (by simp [Event.ending, Event.closing])

/-- The three ways a run can end, read off its log. -/
theorem while_hits_outcome (cfg : Config) (lib : Collaborators) (hookset : EB_Hookset)
    (batches : List (Option (List EB_Hit))) (s : State) :
    ∃ new, (while_hits cfg lib hookset batches s).state.trace = s.trace ++ new ∧
      (((while_hits cfg lib hookset batches s).exit_code = 0 ∧
          (while_hits cfg lib hookset batches s).undefined = false ∧ clean new ∧
          ∃ pre, new = pre ++ finalizers) ∨
        ((while_hits cfg lib hookset batches s).exit_code = 1 ∧
          (while_hits cfg lib hookset batches s).undefined = false ∧
          ∃ pre e closing, new = pre ++ e :: closing ∧ clean pre ∧ e.failed = true ∧
            (closing = finalizers ∨ closing = .fclose :: finalizers)) ∨
        ((while_hits cfg lib hookset batches s).undefined = true ∧
          ∃ pre, new = pre ++ [.eb_hit_list false 0, .fclose] ∧ clean pre)) := by
  induction batches generalizing s with
  | nil =>
    refine ⟨.eb_hit_list true 0 :: finalizers, ?_,
      Or.inl ⟨?_, ?_, ?_, [.eb_hit_list true 0], rfl⟩⟩
    · simp [while_hits, cleanup, State.log, finalizers]
    · simp [while_hits, cleanup]
    · simp [while_hits, cleanup]
    · simp [clean, finalizers, Event.failed]
  | cons b rest ih =>
    cases b with
    | none =>
      cases hs : s.out_file with
      | null =>
        refine ⟨.eb_hit_list false 0 :: finalizers, ?_, Or.inr (Or.inl ⟨?_, ?_,
          [], .eb_hit_list false 0, _, rfl, clean_nil, rfl, Or.inl rfl⟩)⟩
        · simp [while_hits, die, State.log, hs, finalizers]
        · simp [while_hits, die, State.log, hs]
        · simp [while_hits, die, State.log, hs]
      | opened =>
        refine ⟨.eb_hit_list false 0 :: .fclose :: finalizers, ?_, Or.inr (Or.inl ⟨?_, ?_,
          [], .eb_hit_list false 0, _, rfl, clean_nil, rfl, Or.inr rfl⟩)⟩
        · simp [while_hits, die, State.log, hs, finalizers]
        · simp [while_hits, die, State.log, hs]
        · simp [while_hits, die, State.log, hs]
      | closed =>
        refine ⟨[.eb_hit_list false 0, .fclose], ?_, Or.inr (Or.inr ⟨?_, [], rfl, clean_nil⟩)⟩
        · simp [while_hits, die, State.log, hs]
        · simp [while_hits, die, State.log, hs]
    | some batch =>
      cases batch with
      | nil =>
        refine ⟨.eb_hit_list true 0 :: finalizers, ?_,
          Or.inl ⟨?_, ?_, ?_, [.eb_hit_list true 0], rfl⟩⟩
        · simp [while_hits, cleanup, State.log, finalizers]
        · simp [while_hits, cleanup]
        · simp [while_hits, cleanup]
        · simp [clean, finalizers, Event.failed]
      | cons h t =>
        rw [while_hits_cons]
        obtain ⟨o1, _, _, o4, _, _⟩ := open_batch_spec cfg (h :: t) s
        have hco := clean_batch_opening cfg ((h :: t).length : Int)
        obtain ⟨idx, es, hl, _⟩ := for_hits_spec cfg lib hookset
          (min ((h :: t).length : Int) cfg.max_hits_to_output)
          (min ((h :: t).length : Int) cfg.max_hits_to_output).toNat 0
          (open_batch cfg (h :: t) s)
        obtain ⟨l1, _, _, l4, l5, l6⟩ := hl
        cases hf : for_hits cfg lib hookset
          (min ((h :: t).length : Int) cfg.max_hits_to_output)
          (min ((h :: t).length : Int) cfg.max_hits_to_output).toNat 0
          (open_batch cfg (h :: t) s) with
        | die s1 =>
          rw [hf] at l1 l4 l6
          simp only [Flow.state] at l1 l4
          have hof : s1.out_file = .opened := l4.trans o4
          obtain ⟨pre, e, rfl, hfe, hpre⟩ := l6 rfl
          refine ⟨batch_opening cfg ((h :: t).length : Int) ++ (pre ++ [e]) ++
            (.fclose :: finalizers), ?_, Or.inr (Or.inl ⟨(die_state s1).2.1,
            die_defined s1 (by rw [hof]; decide),
            batch_opening cfg ((h :: t).length : Int) ++ pre, e, .fclose :: finalizers,
            by simp, (clean_append _ _).2 ⟨hco, hpre⟩, hfe, Or.inr rfl⟩)⟩
          simp only []
          rw [die_trace s1 hof, l1, o1]
          simp [finalizers]
        | ok s1 =>
          rw [hf] at l1 l5
          simp only [Flow.state] at l1
          have hes : clean es := l5 rfl
          obtain ⟨new, hn, hcase⟩ := ih s1.fclose
          have hpc : clean (batch_opening cfg ((h :: t).length : Int) ++ es ++ [.fclose]) :=
            (clean_append _ _).2 ⟨(clean_append _ _).2 ⟨hco, hes⟩, by simp [clean, Event.failed]⟩
          refine ⟨batch_opening cfg ((h :: t).length : Int) ++ es ++ [.fclose] ++ new, ?_, ?_⟩
          · simp only []
            rw [hn]
            simp [State.fclose, l1, o1]
          · simp only []
            rcases hcase with ⟨h0, hd, hc, pre, rfl⟩ |
              ⟨h1, hd, pre, e, closing, rfl, hpre, hfe, hcl⟩ | ⟨hu, pre, rfl, hpre⟩
            · exact Or.inl ⟨h0, hd, (clean_append _ _).2 ⟨hpc, hc⟩,
                batch_opening cfg ((h :: t).length : Int) ++ es ++ [.fclose] ++ pre, by simp⟩
            · exact Or.inr (Or.inl ⟨h1, hd, batch_opening cfg ((h :: t).length : Int) ++ es ++
                [.fclose] ++ pre, e, closing, by simp, (clean_append _ _).2 ⟨hpc, hpre⟩,
                hfe, hcl⟩)
            · exact Or.inr (Or.inr ⟨hu, batch_opening cfg ((h :: t).length : Int) ++ es ++
                [.fclose] ++ pre, by simp, (clean_append _ _).2 ⟨hpc, hpre⟩⟩)

/-- The sample converter and the sample substitution keep an empty string empty. -/
theorem sample_convert_keeps_empty (k : Nat) (n : Int) (c : Bytes)
    (h : sample_lib.convert_encoding (List.replicate (k + 1) 0) n = some c) : c_str c = [] := by
  simp only [sample_lib, Option.some.injEq] at h
  subst h
  cases hm : n.toNat with
  | zero => simp [c_str]
  | succ m => simp [c_str, List.replicate_succ]

theorem sample_replace_keeps_empty (c : Bytes) (h : c_str c = []) :
    c_str (sample_lib.replace_gaiji_with_utf8 c) = [] := by
  cases c with
  | nil => simp [sample_lib, c_str]
  | cons x t =>
    by_cases hx : x = 0
    · subst hx
      simp [sample_lib, c_str]
    · simp [c_str, hx] at h

/-- A hit list that fails after a first batch: line 390 has closed the output file and
left `out_file` pointing to it, so `die` closes it a second time; the model stops at
that call and marks the run as undefined. -/
theorem second_fclose_after_failed_hit_list :
    (while_hits plain_cfg sample_lib (WinMain_hookset plain_cfg)
        [some [sample_hit 0], none] sample_state).undefined = true ∧
      (while_hits plain_cfg sample_lib (WinMain_hookset plain_cfg)
        [some [sample_hit 0], none] sample_state).state.trace.drop 13 =
        [.fclose, .eb_hit_list false 0, .fclose] := by
  decide

/-- With `--no-text` the unread `text` buffer is still converted, with whatever value
`text_length` holds: a converter that rejects that value (here -1) makes the run die
with status 1 after the heading of hit 0, and hit 1 is not rendered. -/
theorem no_text_aborts_on_rejected_length :
    (while_hits no_text_cfg strict_lib (WinMain_hookset no_text_cfg)
        [some [sample_hit 0, sample_hit 1]]
        (initial_state 4 (-1) (fun _ => sample_hit 9))).exit_code = 1 ∧
      (while_hits no_text_cfg strict_lib (WinMain_hookset no_text_cfg)
        [some [sample_hit 0, sample_hit 1]]
        (initial_state 4 (-1) (fun _ => sample_hit 9))).state.out = [72, 48, 128, 10] ∧
      iterations (while_hits no_text_cfg strict_lib (WinMain_hookset no_text_cfg)
        [some [sample_hit 0, sample_hit 1]]
        (initial_state 4 (-1) (fun _ => sample_hit 9))).state.trace = [0] := by
  decide

/-! ## The claims -/

/-- C1. With show-hit-count enabled, a run in which the hit list returns a batch of
`n ≥ 1` hits and then zero leaves an output file that starts with the line
`{HITS: n}`: `n` is the number of hits returned, whatever the other settings are and
however the rendering of the hits goes. -/
theorem hit_count_banner (cfg : Config) (lib : Collaborators) (hookset : EB_Hookset)
    (batch : List EB_Hit) (rest : List (Option (List EB_Hit))) (s : State)
    (hn : 1 ≤ batch.length) (hshow : cfg.show_hit_count ≠ 0) (hrest : reports_zero rest) :
    (∃ tail, (while_hits cfg lib hookset (some batch :: rest) s).state.out =
        hits_banner batch.length ++ tail) ∧
      first_line (while_hits cfg lib hookset (some batch :: rest) s).state.out =
        ascii "\x7bHITS: " ++ fmt_d batch.length ++ ascii "\x7d" := by
  have key : ∃ tail, (while_hits cfg lib hookset (some batch :: rest) s).state.out =
      hits_banner batch.length ++ tail := by
    cases batch with
    | nil => simp at hn
    | cons h t =>
      rw [while_hits_cons]
      obtain ⟨idx, es, hl, _⟩ := for_hits_spec cfg lib hookset
        (min ((h :: t).length : Int) cfg.max_hits_to_output)
        (min ((h :: t).length : Int) cfg.max_hits_to_output).toNat 0
        (open_batch cfg (h :: t) s)
      have hout : (open_batch cfg (h :: t) s).out = hits_banner (h :: t).length := by
        simp [open_batch, hshow, State.emit, State.log]
      cases hf : for_hits cfg lib hookset
        (min ((h :: t).length : Int) cfg.max_hits_to_output)
        (min ((h :: t).length : Int) cfg.max_hits_to_output).toNat 0
        (open_batch cfg (h :: t) s) with
      | die s1 =>
        rw [hf] at hl
        refine ⟨written es, ?_⟩
        simp only []
        rw [(die_state s1).1]
        have := hl.2.1
        simp only [Flow.state] at this
        rw [this, hout]
      | ok s1 =>
        rw [hf] at hl
        refine ⟨written es, ?_⟩
        simp only []
        rw [while_hits_zero cfg lib hookset rest hrest, (cleanup_state _).1]
        have := hl.2.1
        simp only [Flow.state] at this
        simp only [State.log, State.fclose]
        rw [this, hout]
  obtain ⟨tail, ht⟩ := key
  exact ⟨⟨tail, ht⟩, by rw [ht]; exact first_line_hits_banner _ _⟩

/-- C1 at three sample hits with `--show-count`: the first line is `{HITS: 3}`. -/
theorem hit_count_banner_witness :
    first_line (while_hits count_cfg sample_lib (WinMain_hookset count_cfg)
        [some three_hits] sample_state).state.out = [123, 72, 73, 84, 83, 58, 32, 51, 125] :=
  (hit_count_banner count_cfg sample_lib (WinMain_hookset count_cfg) three_hits []
    sample_state (by decide) (by decide) (Or.inl rfl)).2

/-- C2. With a selected hit index `k` below the number of hits of the batch (and the
hit-count banner off), the log of the run is the opening of the batch, the entry of
the loop body for `k`, then only actions for `hits[k]`, then the closing actions: no
`{ENTRY: n}` line is printed and the file holds exactly what was written for hit `k`,
whatever hit-num and max-hits (at least 1) are.  When heading and text are both
printed and the calls for hit `k` succeed, the file is its heading line followed by its
body. -/
theorem selected_hit_isolation (cfg : Config) (lib : Collaborators) (hookset : EB_Hookset)
    (batch : List EB_Hit) (rest : List (Option (List EB_Hit))) (s : State) (k : Nat)
    (hit : EB_Hit) (hb hc tb tc : Bytes)
    (hsel : cfg.hit_to_output = k) (hk : batch.get? k = some hit)
    (hcount : cfg.show_hit_count = 0) (hmax : 1 ≤ cfg.max_hits_to_output)
    (hrest : reports_zero rest) :
    (∃ blk tail, (while_hits cfg lib hookset (some batch :: rest) s).state.trace =
        s.trace ++ [.eb_hit_list true batch.length, .fopen_w, .hit k] ++ blk ++ tail ∧
        (∀ e ∈ blk, e.in_block k = true) ∧ (∀ e ∈ tail, e.ending = true) ∧
        (while_hits cfg lib hookset (some batch :: rest) s).state.out = written blk) ∧
      (cfg.print_heading ≠ 0 → cfg.print_text ≠ 0 →
        lib.eb_seek_text hit.heading = true →
        lib.eb_read_heading hookset hit.heading = some hb →
        lib.convert_encoding hb hb.length = some hc →
        lib.eb_seek_text hit.text = true →
        lib.eb_read_text hookset hit.text = some tb →
        lib.convert_encoding tb tb.length = some tc →
        (while_hits cfg lib hookset (some batch :: rest) s).state.out =
            c_str hc ++ ascii "\n" ++ c_str (lib.replace_gaiji_with_utf8 tc) ∧
          (while_hits cfg lib hookset (some batch :: rest) s).exit_code = 0) := by
  have hlen : k < batch.length := by
    rcases Nat.lt_or_ge k batch.length with h | h
    · exact h
    · have := List.get?_eq_none.2 h
      rw [this] at hk
      cases hk
  have hn : 1 ≤ batch.length := by omega
  have hmin : 0 < min (batch.length : Int) cfg.max_hits_to_output := by omega
  constructor
  · obtain ⟨idx, es, tail, ht, ho, hr, htail, _, hs, _⟩ :=
      batch_run_spec cfg lib hookset batch rest s hn hrest
    have hidx := hs (by omega)
    rw [if_pos hmin, hsel] at hidx
    subst hidx
    have hban : entry_banner_shown cfg (min (batch.length : Int) cfg.max_hits_to_output) =
        false := by
      simp only [entry_banner_shown, decide_eq_false_iff_not]
      intro h
      omega
    rw [hban] at hr
    obtain ⟨blk, rest', hes, hin, hr'⟩ := hr
    simp only [rendered] at hr'
    subst hr'
    subst hes
    refine ⟨blk, tail, ?_, hin, htail, ?_⟩
    · rw [ht]
      simp [batch_opening, hcount, hit_opening]
    · rw [ho]
      simp [batch_opening, hcount, hit_opening, written_cons, written_nil, written_append,
        Event.bytes]
  · intro hph hpt hs1 hr1 hc1 hs2 hr2 hc2
    cases batch with
    | nil => simp at hn
    | cons h t =>
      rw [while_hits_cons]
      obtain ⟨m, hm⟩ : ∃ m, (min ((h :: t).length : Int) cfg.max_hits_to_output).toNat =
          m + 1 := ⟨(min ((h :: t).length : Int) cfg.max_hits_to_output).toNat - 1, by omega⟩
      rw [hm, for_hits_selected cfg lib hookset _ m _ (by omega) hmin]
      obtain ⟨_, o2, o3, _⟩ := open_batch_spec cfg (h :: t) s
      have hhit : (open_batch cfg (h :: t) s).hits cfg.hit_to_output = hit := by
        rw [o3, hsel]
        exact store_hits_get _ _ _ _ hk
      have hnb : ¬ (cfg.print_hit_number ≠ 0 ∧
          min ((h :: t).length : Int) cfg.max_hits_to_output > 1 ∧ cfg.hit_to_output = -1) := by
        intro h
        omega
      obtain ⟨s1, e1, out1, hits1, _, _, _, _⟩ := heading_block_ok cfg lib hookset
        cfg.hit_to_output ((open_batch cfg (h :: t) s).log (.hit cfg.hit_to_output)) hb hc hph
        (by simpa [State.log, hhit] using hs1) (by simpa [State.log, hhit] using hr1) hc1
      have hhit1 : s1.hits cfg.hit_to_output = hit := by
        rw [hits1]
        simpa [State.log] using hhit
      obtain ⟨s2, e2, out2, _⟩ := text_block_ok cfg lib hookset cfg.hit_to_output s1 tb tc hpt
        (by simpa [hhit1] using hs2) (by simpa [hhit1] using hr2) hc2
      have hbody : hit_body cfg lib hookset
          (min ((h :: t).length : Int) cfg.max_hits_to_output) cfg.hit_to_output
          (open_batch cfg (h :: t) s) = .ok s2 := by
        simp only [hit_body, hnb, if_false, e1, e2]
      rw [hbody]
      simp only []
      rw [while_hits_zero cfg lib hookset rest hrest]
      refine ⟨?_, (cleanup_state _).2.1⟩
      rw [(cleanup_state _).1]
      simp only [State.log, State.fclose]
      rw [out2, out1]
      simp [State.log, o2, batch_opening, hcount, written_cons, written_nil, Event.bytes]

/-- C2 at `--hit 1 --hit-num` and three sample hits: the file is the heading line and the
text of hit 1, and the run exits with status 0. -/
theorem selected_hit_isolation_witness :
    (while_hits selected_cfg sample_lib (WinMain_hookset selected_cfg)
        [some three_hits] sample_state).state.out = [72, 49, 128, 10, 84, 49, 63] ∧
      (while_hits selected_cfg sample_lib (WinMain_hookset selected_cfg)
        [some three_hits] sample_state).exit_code = 0 :=
  (selected_hit_isolation selected_cfg sample_lib (WinMain_hookset selected_cfg) three_hits []
    sample_state 1 (sample_hit 1) [72, 49, 128] [72, 49, 128, 0] [84, 49, 128]
    [84, 49, 128, 0] rfl rfl rfl (by decide) (Or.inl rfl)).2
    (by decide) (by decide) rfl rfl rfl rfl rfl rfl

/-- C3. The hookset built at startup: a hook is registered exactly when it is the
narrow-font or the wide-font hook, or the begin or end hook of a category (emphasis,
keyword, reference, subscript, superscript) whose enable flag is set. -/
theorem hookset_registration (cfg : Config) (hook : EB_Hook) :
    registered (WinMain_hookset cfg) hook ↔
      (hook = hook_narrow_font ∨ hook = hook_wide_font ∨
       (cfg.set_emphasis_hook ≠ 0 ∧ (hook = hook_begin_emphasis ∨ hook = hook_end_emphasis)) ∨
       (cfg.set_keyword_hook ≠ 0 ∧ (hook = hook_begin_keyword ∨ hook = hook_end_keyword)) ∨
       (cfg.set_reference_hook ≠ 0 ∧
          (hook = hook_begin_reference ∨ hook = hook_end_reference)) ∨
       (cfg.set_subscript_hook ≠ 0 ∧
          (hook = hook_begin_subscript ∨ hook = hook_end_subscript)) ∨
       (cfg.set_superscript_hook ≠ 0 ∧
          (hook = hook_begin_superscript ∨ hook = hook_end_superscript))) := by
  obtain ⟨c, f⟩ := hook
  unfold registered
  rw [slot_eq]
  cases c <;> cases f <;>
  simp [hook_begin_subscript, hook_begin_superscript, hook_end_subscript, hook_end_superscript,
    hook_narrow_font, hook_wide_font, hook_begin_keyword, hook_end_keyword,
    hook_begin_emphasis, hook_end_emphasis, hook_begin_reference, hook_end_reference]

/-- C4. In every run the new part of the log is of one of three kinds.  Either no call
failed and the run ends with the cleanup and exit status 0.  Or exactly one call
failed, everything before it succeeded, nothing follows it but the closing of the
output file, when it is open, and the finalisation of the book, the library and the
hookset, and the exit status is 1.  Or the failed call is an `eb_hit_list` made while
`out_file` still points to the FILE that line 390 closed: `die` then closes it a
second time and the run leaves defined behaviour at that call.  Hence a run in which a
seek, a read or a conversion fails is of the second kind, aborted at that call, and a
run in which no call fails exits with status 0. -/
theorem abort_on_error (cfg : Config) (lib : Collaborators) (hookset : EB_Hookset)
    (batches : List (Option (List EB_Hit))) (s : State) :
    ∃ new, (while_hits cfg lib hookset batches s).state.trace = s.trace ++ new ∧
      (((while_hits cfg lib hookset batches s).exit_code = 0 ∧
          (while_hits cfg lib hookset batches s).undefined = false ∧ clean new ∧
          ∃ pre, new = pre ++ finalizers) ∨
        ((while_hits cfg lib hookset batches s).exit_code = 1 ∧
          (while_hits cfg lib hookset batches s).undefined = false ∧
          ∃ pre e closing, new = pre ++ e :: closing ∧ clean pre ∧ e.failed = true ∧
            (closing = finalizers ∨ closing = .fclose :: finalizers)) ∨
        ((while_hits cfg lib hookset batches s).undefined = true ∧
          ∃ pre, new = pre ++ [.eb_hit_list false 0, .fclose] ∧ clean pre)) ∧
      (∀ e ∈ new, e.render_failure = true →
        (while_hits cfg lib hookset batches s).exit_code = 1 ∧
        (while_hits cfg lib hookset batches s).undefined = false ∧
        ∃ pre closing, new = pre ++ e :: closing ∧ clean pre ∧
          (closing = finalizers ∨ closing = .fclose :: finalizers)) ∧
      (clean new →
        (while_hits cfg lib hookset batches s).exit_code = 0 ∧
        (while_hits cfg lib hookset batches s).undefined = false) := by
  obtain ⟨new, ht, hcase⟩ := while_hits_outcome cfg lib hookset batches s
  refine ⟨new, ht, hcase, ?_, ?_⟩
  · intro e he hr
    obtain ⟨hf, h1, h2, _⟩ := render_failure_failed e hr
    rcases hcase with ⟨_, _, hc, _⟩ | ⟨hx, hd, pre, e', closing, hnew, hpre, _, hcl⟩ |
      ⟨_, pre, hnew, hpre⟩
    · have := hc e he
      rw [hf] at this
      cases this
    · have := outcome_of_render_failure new e he hr pre e' closing hnew hpre hcl
      subst this
      exact ⟨hx, hd, pre, closing, hnew, hpre, hcl⟩
    · subst hnew
      rcases List.mem_append.1 he with h | h
      · have := hpre e h
        rw [hf] at this
        cases this
      · simp at h
        rcases h with h | h
        · exact absurd h h1
        · exact absurd h h2
  · intro hc
    rcases hcase with ⟨h0, hd, _, _⟩ | ⟨_, _, pre, e', closing, hnew, _, hfe, _⟩ |
      ⟨_, pre, hnew, _⟩
    · exact ⟨h0, hd⟩
    · have := hc e' (by rw [hnew]; simp)
      rw [hfe] at this
      cases this
    · have := hc (.eb_hit_list false 0) (by rw [hnew]; simp)
      simp [Event.failed] at this

/-- C4 at three sample hits with a seek that fails for hit 1: the failed seek is in the
log, so the run exits with status 1 within defined behaviour. -/
theorem abort_on_error_witness :
    (while_hits plain_cfg broken_seek_lib (WinMain_hookset plain_cfg) [some three_hits]
        sample_state).exit_code = 1 ∧
      (while_hits plain_cfg broken_seek_lib (WinMain_hookset plain_cfg) [some three_hits]
        sample_state).undefined = false := by
  obtain ⟨new, ht, _, hfail, _⟩ := abort_on_error plain_cfg broken_seek_lib
    (WinMain_hookset plain_cfg) [some three_hits] sample_state
  have hs : sample_state.trace = [] := rfl
  have hmem : Event.eb_seek_text 1 .heading false ∈
      (while_hits plain_cfg broken_seek_lib (WinMain_hookset plain_cfg) [some three_hits]
        sample_state).state.trace := by decide
  rw [ht, hs, List.nil_append] at hmem
  obtain ⟨h1, h2, _⟩ := hfail _ hmem rfl
  exact ⟨h1, h2⟩

/-- C5. When the text is printed and the seek, the read and the conversion for
`hits[i]` succeed, the text block converts exactly the bytes the read returned, with
their number as length, then substitutes the glyphs in the converted buffer, and
appends the result, up to its first NUL byte, to the output file. -/
theorem body_pipeline_order (cfg : Config) (lib : Collaborators) (hookset : EB_Hookset)
    (i : Int) (s : State) (tb tc : Bytes) (hp : cfg.print_text ≠ 0)
    (hseek : lib.eb_seek_text (s.hits i).text = true)
    (hread : lib.eb_read_text hookset (s.hits i).text = some tb)
    (hconv : lib.convert_encoding tb tb.length = some tc) :
    ∃ s', text_block cfg lib hookset i s = .ok s' ∧
      s'.out = s.out ++ c_str (lib.replace_gaiji_with_utf8 tc) ∧
      s'.text = tb ∧ s'.text_length = tb.length ∧
      s'.trace = s.trace ++ [.eb_seek_text i .text true, .eb_read i .text true,
        .convert_encoding i .text true, .replace_gaiji_with_utf8 i .text,
        .write i .text (c_str (lib.replace_gaiji_with_utf8 tc))] := by
  obtain ⟨s', h1, h2, _, h4, h5, _, h7⟩ :=
    text_block_ok cfg lib hookset i s tb tc hp hseek hread hconv
  exact ⟨s', h1, h2, h4, h5, h7⟩

/-- C5 at the sample state: the text `T9` and the byte 128 is converted, the byte 128 is
substituted by `?`, and `T9?` is written. -/
theorem body_pipeline_order_witness :
    ∃ s', text_block plain_cfg sample_lib (WinMain_hookset plain_cfg) 0 sample_state = .ok s' ∧
      s'.out = [84, 57, 63] ∧ s'.text = [84, 57, 128] ∧ s'.text_length = 3 ∧
      s'.trace = [.eb_seek_text 0 .text true, .eb_read 0 .text true,
        .convert_encoding 0 .text true, .replace_gaiji_with_utf8 0 .text,
        .write 0 .text [84, 57, 63]] :=
  body_pipeline_order plain_cfg sample_lib (WinMain_hookset plain_cfg) 0 sample_state
    [84, 57, 128] [84, 57, 128, 0] (by decide) rfl rfl rfl

/-- C6. One hit, heading and text printed, the sample library: the heading is read as
`H0` and the byte 128, which the substitution would turn into `?`.  The file gets the
heading line with the byte 128 still in it (the converted buffer), whereas the text
after it is substituted; the substituted heading line would be `H0?`. -/
theorem heading_written_unsubstituted :
    (while_hits plain_cfg sample_lib (WinMain_hookset plain_cfg) [some [sample_hit 0]]
        sample_state).state.out = [72, 48, 128, 10] ++ [84, 48, 63] ∧
      c_str (sample_lib.replace_gaiji_with_utf8 [72, 48, 128, 0]) ++ ascii "\n" =
        [72, 48, 63, 10] := by
  decide

/-- C7, the claim as stated fails. One batch of two hits, both rendered: the output
file is opened once, and at the end it holds the heading and text of hit 0 followed by
those of hit 1, not the content of hit 1 alone. -/
theorem both_hits_of_a_batch_survive :
    iterations (while_hits plain_cfg sample_lib (WinMain_hookset plain_cfg)
        [some [sample_hit 0, sample_hit 1]] sample_state).state.trace = [0, 1] ∧
      (while_hits plain_cfg sample_lib (WinMain_hookset plain_cfg)
        [some [sample_hit 0, sample_hit 1]] sample_state).state.trace.count .fopen_w = 1 ∧
      (while_hits plain_cfg sample_lib (WinMain_hookset plain_cfg)
        [some [sample_hit 0, sample_hit 1]] sample_state).state.out =
        [72, 48, 128, 10, 84, 48, 63] ++ [72, 49, 128, 10, 84, 49, 63] ∧
      (while_hits plain_cfg sample_lib (WinMain_hookset plain_cfg)
        [some [sample_hit 0, sample_hit 1]] sample_state).state.out ≠
        [72, 49, 128, 10, 84, 49, 63] := by
  decide

/-- C7, amended. The output file is opened in truncate mode once per batch, before
the loop over the hits of the batch.  Inside that loop the file is not reopened and
what the hits write is appended to what the file already holds; a batch with at least
one hit replaces whatever the file held before it, so the file a run leaves does not
depend on that earlier content. -/
theorem truncate_per_batch (cfg : Config) (lib : Collaborators) (hookset : EB_Hookset) :
    (∀ hit_count fuel i s, ∃ es,
      (for_hits cfg lib hookset hit_count fuel i s).state.trace = s.trace ++ es ∧
      (for_hits cfg lib hookset hit_count fuel i s).state.out = s.out ++ written es ∧
      Event.fopen_w ∉ es) ∧
    (∀ h t s, (open_batch cfg (h :: t) s).trace =
        s.trace ++ batch_opening cfg ((h :: t).length : Int) ∧
      (batch_opening cfg ((h :: t).length : Int)).count .fopen_w = 1 ∧
      (open_batch cfg (h :: t) s).out = written (batch_opening cfg ((h :: t).length : Int))) ∧
    (∀ h t rest s content,
      (while_hits cfg lib hookset (some (h :: t) :: rest) { s with out := content }).state.out =
        (while_hits cfg lib hookset (some (h :: t) :: rest) s).state.out) := by
  refine ⟨?_, ?_, ?_⟩
  · intro hit_count fuel i s
    obtain ⟨idx, es, hl, hr, _⟩ := for_hits_spec cfg lib hookset hit_count fuel i s
    exact ⟨es, hl.1, hl.2.1, rendered_no_fopen _ _ _ hr⟩
  · intro h t s
    obtain ⟨o1, o2, _⟩ := open_batch_spec cfg (h :: t) s
    refine ⟨o1, ?_, o2⟩
    by_cases hs : cfg.show_hit_count = 0 <;> simp [batch_opening, hs]
  · intro h t rest s content
    have : open_batch cfg (h :: t) { s with out := content } = open_batch cfg (h :: t) s := by
      simp [open_batch, State.log, State.emit]
    rw [while_hits_cons, while_hits_cons, this]

/-- C8, the claim as stated fails. Three hits, max-hits 5, no selected hit index, and
a seek that fails for hit 1: the loop body is entered for 0 and 1 only, the run is
aborted with status 1, and the file holds hit 0 alone, although `min(n, max-hits)` is
3. -/
theorem failed_seek_stops_the_batch :
    min ((three_hits.length : Int)) plain_cfg.max_hits_to_output = 3 ∧
      iterations (while_hits plain_cfg broken_seek_lib (WinMain_hookset plain_cfg)
        [some three_hits] sample_state).state.trace = [0, 1] ∧
      seek_indices (while_hits plain_cfg broken_seek_lib (WinMain_hookset plain_cfg)
        [some three_hits] sample_state).state.trace = [0, 0, 1] ∧
      (while_hits plain_cfg broken_seek_lib (WinMain_hookset plain_cfg)
        [some three_hits] sample_state).exit_code = 1 ∧
      (while_hits plain_cfg broken_seek_lib (WinMain_hookset plain_cfg)
        [some three_hits] sample_state).state.out = [72, 48, 128, 10, 84, 48, 63] := by
  decide

/-- C8, amended. Without a selected hit index, a batch of `n ≥ 1` hits followed by a
report of zero hits has its loop body entered for the indices `0, 1, ..., m - 1`, each
once and in this order, and every seek, read, conversion, substitution and write is
for an index below `m`, hence below max-hits and below `n`.  When no call fails `m` is
`min(n, max-hits)`: if every call for the first `min(n, max-hits)` hits of the batch
succeeds, the run exits with status 0 and the file holds, after the `{HITS: n}` line
when it is asked for, the `{ENTRY: i}` line (when shown), the heading line and the
body of each of these hits, in the order of the batch.  When a call fails the run is
aborted at that hit, and `m` is at least 1 and at most `min(n, max-hits)`. -/
theorem hit_order_and_cap (cfg : Config) (lib : Collaborators) (hookset : EB_Hookset)
    (batch : List EB_Hit) (rest : List (Option (List EB_Hit))) (s : State)
    (hn : 1 ≤ batch.length) (hsel : cfg.hit_to_output = -1) (hrest : reports_zero rest) :
    (∃ new m, (while_hits cfg lib hookset (some batch :: rest) s).state.trace =
        s.trace ++ new ∧
      iterations new = (List.range m).map Int.ofNat ∧
      (((while_hits cfg lib hookset (some batch :: rest) s).exit_code = 0 ∧
          m = (min (batch.length : Int) cfg.max_hits_to_output).toNat) ∨
        ((while_hits cfg lib hookset (some batch :: rest) s).exit_code = 1 ∧ 0 < m ∧
          m ≤ (min (batch.length : Int) cfg.max_hits_to_output).toNat)) ∧
      ∀ e ∈ new, ∀ j, e.in_block j = true →
        0 ≤ j ∧ j < m ∧ j < cfg.max_hits_to_output ∧ j < batch.length) ∧
    (∀ bytes, hits_content cfg lib hookset s.text s.text_length
        (decide (cfg.print_hit_number ≠ 0 ∧
          1 < min (batch.length : Int) cfg.max_hits_to_output)) 0
        (batch.take (min (batch.length : Int) cfg.max_hits_to_output).toNat) = some bytes →
      (while_hits cfg lib hookset (some batch :: rest) s).exit_code = 0 ∧
      (while_hits cfg lib hookset (some batch :: rest) s).state.out =
        (if cfg.show_hit_count ≠ 0 then hits_banner batch.length else []) ++ bytes) := by
  constructor
  · obtain ⟨idx, es, tail, ht, _, hr, htail, hexit, _, hnosel⟩ :=
      batch_run_spec cfg lib hookset batch rest s hn hrest
    obtain ⟨m, hm, hle, h0, h1⟩ := hnosel (by omega)
    obtain ⟨o1, _, o3⟩ := batch_opening_silent cfg batch.length
    obtain ⟨t1, _, t3⟩ := iterations_ending tail htail
    refine ⟨batch_opening cfg batch.length ++ es ++ tail, m, by rw [ht]; simp, ?_, ?_, ?_⟩
    · rw [iterations_append, iterations_append, o1, t1, rendered_iterations _ _ _ hr, hm,
        indices_from_eq_range]
      simp
    · rcases hexit with ⟨he, _⟩ | ⟨he, _⟩
      · exact Or.inl ⟨he, h0 he⟩
      · exact Or.inr ⟨he, h1 he, hle⟩
    · intro e he j hj
      rcases List.mem_append.1 he with h2 | h2
      · rcases List.mem_append.1 h2 with h3 | h3
        · have := o3 e h3 j
          simp [hj] at this
        · have := rendered_in_block _ _ _ hr e h3 j hj
          rw [hm, mem_indices_from] at this
          omega
      · have := t3 e h2 j
        simp [hj] at this
  · intro bytes hc
    exact batch_content cfg lib hookset batch rest s bytes hn hsel hrest hc

/-- C8 at three sample hits and max-hits 5: the loop body is entered for 0, 1, 2, and
the file holds the heading line and the text of hit 0, of hit 1 and of hit 2. -/
theorem hit_order_and_cap_witness :
    iterations (while_hits plain_cfg sample_lib (WinMain_hookset plain_cfg)
        [some three_hits] sample_state).state.trace = [0, 1, 2] ∧
      (while_hits plain_cfg sample_lib (WinMain_hookset plain_cfg)
        [some three_hits] sample_state).state.out =
        [72, 48, 128, 10, 84, 48, 63] ++ [72, 49, 128, 10, 84, 49, 63] ++
          [72, 50, 128, 10, 84, 50, 63] := by
  obtain ⟨⟨new, m, ht, hi, hcase, _⟩, hcontent⟩ := hit_order_and_cap plain_cfg sample_lib
    (WinMain_hookset plain_cfg) three_hits [] sample_state (by decide) rfl (Or.inl rfl)
  constructor
  · have hs : sample_state.trace = [] := rfl
    rw [ht, hs, List.nil_append, hi]
    rcases hcase with ⟨_, hm⟩ | ⟨h1, _⟩
    · rw [hm]
      decide
    · exact absurd h1 (by decide)
  · exact (hcontent _ (by decide)).2

/-- C9, the claim as stated fails. With hit-num on, no selected hit index and
max-hits 1, the search returns two hits (`eb_hit_list` reports 2), hit 0 is rendered,
and no `{ENTRY: 0}` line is written: the file is the heading line and the text of
hit 0 and does not start with `{ENTRY: 0}`. -/
theorem no_entry_banner_when_capped_to_one :
    (while_hits capped_cfg sample_lib (WinMain_hookset capped_cfg)
        [some [sample_hit 0, sample_hit 1]] sample_state).state.trace.head? =
        some (.eb_hit_list true 2) ∧
      iterations (while_hits capped_cfg sample_lib (WinMain_hookset capped_cfg)
        [some [sample_hit 0, sample_hit 1]] sample_state).state.trace = [0] ∧
      entries (while_hits capped_cfg sample_lib (WinMain_hookset capped_cfg)
        [some [sample_hit 0, sample_hit 1]] sample_state).state.trace = [] ∧
      (while_hits capped_cfg sample_lib (WinMain_hookset capped_cfg)
        [some [sample_hit 0, sample_hit 1]] sample_state).state.out =
        [72, 48, 128, 10, 84, 48, 63] ∧
      ¬ (entry_banner 0 <+: (while_hits capped_cfg sample_lib (WinMain_hookset capped_cfg)
        [some [sample_hit 0, sample_hit 1]] sample_state).state.out) := by
  decide

/-- C9, amended. With no selected hit index, the log of a batch of `n ≥ 1` hits
followed by a report of zero hits is the opening of the batch, one segment per
rendered index, and the closing actions.  When hit-num is on and more than one hit is
to be output, that is `min(n, max-hits) > 1`, the segment of every rendered index `i`
is `hit i`, the `{ENTRY: i}` line, then the actions for `hits[i]`, so the line comes
right before the output of the hit; otherwise no `{ENTRY: ...}` line is written at
all.  The file holds the bytes of exactly these actions. -/
theorem entry_banner_rule (cfg : Config) (lib : Collaborators) (hookset : EB_Hookset)
    (batch : List EB_Hit) (rest : List (Option (List EB_Hit))) (s : State)
    (hn : 1 ≤ batch.length) (hsel : cfg.hit_to_output = -1) (hrest : reports_zero rest) :
    ∃ idx es tail,
      (while_hits cfg lib hookset (some batch :: rest) s).state.trace =
        s.trace ++ batch_opening cfg batch.length ++ es ++ tail ∧
      (while_hits cfg lib hookset (some batch :: rest) s).state.out =
        written (batch_opening cfg batch.length) ++ written es ∧
      rendered (decide (cfg.print_hit_number ≠ 0 ∧
        1 < min (batch.length : Int) cfg.max_hits_to_output)) idx es ∧
      (∀ e ∈ tail, e.ending = true) ∧
      iterations (batch_opening cfg batch.length ++ es ++ tail) = idx ∧
      entries (batch_opening cfg batch.length ++ es ++ tail) =
        if cfg.print_hit_number ≠ 0 ∧ 1 < min (batch.length : Int) cfg.max_hits_to_output
        then idx else [] := by
  obtain ⟨idx, es, tail, ht, ho, hr, htail, _, _, _⟩ :=
    batch_run_spec cfg lib hookset batch rest s hn hrest
  have hb : entry_banner_shown cfg (min (batch.length : Int) cfg.max_hits_to_output) =
      decide (cfg.print_hit_number ≠ 0 ∧
        1 < min (batch.length : Int) cfg.max_hits_to_output) := by
    simp [entry_banner_shown, hsel]
  rw [hb] at hr
  obtain ⟨o1, o2, _⟩ := batch_opening_silent cfg batch.length
  obtain ⟨t1, t2, _⟩ := iterations_ending tail htail
  refine ⟨idx, es, tail, ht, ho, hr, htail, ?_, ?_⟩
  · rw [iterations_append, iterations_append, o1, t1, rendered_iterations _ _ _ hr]
    simp
  · rw [entries_append, entries_append, o2, t2, rendered_entries _ _ _ hr]
    simp

/-- C9 at `--hit-num` and three sample hits: the `{ENTRY: i}` lines are those of 0, 1, 2. -/
theorem entry_banner_rule_witness :
    entries (while_hits hit_num_cfg sample_lib (WinMain_hookset hit_num_cfg)
      [some three_hits] sample_state).state.trace = [0, 1, 2] := by
  obtain ⟨idx, es, tail, ht, _, _, _, hi, he⟩ := entry_banner_rule hit_num_cfg sample_lib
    (WinMain_hookset hit_num_cfg) three_hits [] sample_state (by decide) rfl (Or.inl rfl)
  have hs : sample_state.trace = [] := rfl
  have h3 : iterations (while_hits hit_num_cfg sample_lib (WinMain_hookset hit_num_cfg)
      [some three_hits] sample_state).state.trace = [0, 1, 2] := by decide
  rw [ht, hs, List.nil_append] at h3 ⊢
  rw [he, if_pos (by decide), ← hi, h3]

/-- C10. With `--no-text`, and helpers that keep an empty string empty (the conversion
of a buffer of NUL bytes is a buffer with an empty C string in it, whatever length it
is given, and the substitution of an empty C string is an empty C string), no run
seeks or reads a text position or writes a text byte: lines 368-381 still run on the
unread `text` buffer, and what they write is the empty string.  For a batch of
`n ≥ 1` hits followed by a report of zero hits, the file is exactly the bytes of the
logged actions; with no selected hit index, when the headings of the first
`min(n, max-hits)` hits are obtained and the conversion of the unread buffer does not
fail, the file is the `{HITS: n}` line when asked for, then for each of these hits in
order its `{ENTRY: i}` line (when shown) and its heading line, and nothing else. -/
theorem no_text_prints_no_body (cfg : Config) (lib : Collaborators) (hookset : EB_Hookset)
    (M : Nat) (tl : Int) (hits0 : Int → EB_Hit) (hpt : cfg.print_text = 0)
    (hconv : ∀ (n : Int) (c : Bytes),
      lib.convert_encoding (List.replicate (M + 1) 0) n = some c → c_str c = [])
    (hrep : ∀ c : Bytes, c_str c = [] → c_str (lib.replace_gaiji_with_utf8 c) = []) :
    (∀ batches, ∀ e ∈ (while_hits cfg lib hookset batches
        (initial_state M tl hits0)).state.trace, e.no_body = true) ∧
    (∀ batch rest, 1 ≤ batch.length → reports_zero rest →
      (while_hits cfg lib hookset (some batch :: rest) (initial_state M tl hits0)).state.out =
        written (while_hits cfg lib hookset (some batch :: rest)
          (initial_state M tl hits0)).state.trace ∧
      (cfg.hit_to_output = -1 → ∀ bytes,
        headings_content cfg lib hookset
          (decide (cfg.print_hit_number ≠ 0 ∧
            1 < min (batch.length : Int) cfg.max_hits_to_output)) 0
          (batch.take (min (batch.length : Int) cfg.max_hits_to_output).toNat) = some bytes →
        lib.convert_encoding (List.replicate (M + 1) 0) tl ≠ none →
        (while_hits cfg lib hookset (some batch :: rest)
            (initial_state M tl hits0)).state.out =
          (if cfg.show_hit_count ≠ 0 then hits_banner batch.length else []) ++ bytes ∧
        (while_hits cfg lib hookset (some batch :: rest)
            (initial_state M tl hits0)).exit_code = 0)) := by
  have hz : ∀ c, lib.convert_encoding (initial_state M tl hits0).text
      (initial_state M tl hits0).text_length = some c →
      c_str (lib.replace_gaiji_with_utf8 c) = [] := by
    intro c hc
    exact hrep c (hconv tl c hc)
  refine ⟨?_, ?_⟩
  · intro batches
    exact while_hits_no_body cfg lib hookset batches (initial_state M tl hits0) hpt hz
      (by intro e he; simp [initial_state] at he)
  · intro batch rest hn hrest
    constructor
    · obtain ⟨idx, es, tail, ht, ho, _, htail, _⟩ :=
        batch_run_spec cfg lib hookset batch rest (initial_state M tl hits0) hn hrest
      rw [ht, ho]
      have h0 : (initial_state M tl hits0).trace = [] := rfl
      rw [h0, List.nil_append, written_append, written_append, written_ending tail htail]
      simp
    · intro hsel bytes hb hne
      cases hc : lib.convert_encoding (List.replicate (M + 1) 0) tl with
      | none => exact absurd hc hne
      | some tc =>
        have hcontent := hits_content_no_text cfg lib hookset (List.replicate (M + 1) 0) tl
          (decide (cfg.print_hit_number ≠ 0 ∧
            1 < min (batch.length : Int) cfg.max_hits_to_output)) 0
          (batch.take (min (batch.length : Int) cfg.max_hits_to_output).toNat) tc hpt hc
          (hrep tc (hconv tl tc hc))
        obtain ⟨h1, h2⟩ := batch_content cfg lib hookset batch rest (initial_state M tl hits0)
          bytes hn hsel hrest (by rw [← hb, ← hcontent]; rfl)
        exact ⟨h2, h1⟩

/-- C10 at `--no-text` and three sample hits: the file is the three heading lines. -/
theorem no_text_prints_no_body_witness :
    (while_hits no_text_cfg sample_lib (WinMain_hookset no_text_cfg) [some three_hits]
        sample_state).state.out =
        [72, 48, 128, 10] ++ [72, 49, 128, 10] ++ [72, 50, 128, 10] ∧
      (while_hits no_text_cfg sample_lib (WinMain_hookset no_text_cfg) [some three_hits]
        sample_state).exit_code = 0 :=
  (no_text_prints_no_body no_text_cfg sample_lib (WinMain_hookset no_text_cfg) 4 0
    (fun _ => sample_hit 9) rfl (sample_convert_keeps_empty 4) sample_replace_keeps_empty).2
    three_hits [] (by decide) (Or.inl rfl) |>.2 rfl _ (by decide) (by decide)

/-- C11. With `--hit 5`, which the parser accepts, and a hit list of three hits, the
loop reads `hits[5]` for the heading position and again for the text position: 5 is
not below 3.  What is sought and written is the hit the array happened to hold at
index 5 before the call (here the one of page 9), none of the three hits returned. -/
theorem selected_index_beyond_hit_count :
    parser_accepts 20 out_of_range_cfg ∧ three_hits.length = 3 ∧
      seek_indices (while_hits out_of_range_cfg sample_lib (WinMain_hookset out_of_range_cfg)
        [some three_hits] sample_state).state.trace = [5, 5] ∧
      ¬ ((5 : Int) < three_hits.length) ∧
      (while_hits out_of_range_cfg sample_lib (WinMain_hookset out_of_range_cfg)
        [some three_hits] sample_state).state.out = [72, 57, 128, 10, 84, 57, 63] ∧
      (while_hits out_of_range_cfg sample_lib (WinMain_hookset out_of_range_cfg)
        [some three_hits] sample_state).exit_code = 0 := by
  decide

end Eplkup
